import Mathlib

/-!
Verification of the geometry engine of a WebGL 2D vector-drawing editor.

The source is JavaScript (`src/main.js` and the progressive revisions under
`src/unnamed/`).  Coordinates are modelled as exact rationals (`ℚ`) standing
for the JavaScript float values; trigonometric quantities are passed in as
explicit parameters and tied to `Real.cos`/`Real.sin` in theorem statements.
JavaScript divisions that produce `Infinity`/`NaN` are modelled explicitly by
the `JsNum` type below.
-/

namespace Webgl

/-- A 2D vertex `{x, y}`. -/
structure Pt where
  x : ℚ
  y : ℚ
deriving DecidableEq, Repr

/-- `Primitive.tol = 6`, the pick tolerance in pixels. -/
def tol : ℚ := 6

/-! ## Polygon: vertex deduplication, angular sort (`sort_vertices`) -/

/-- The dedup pass of `sort_vertices`: walk the clicked vertices in order and
drop any vertex whose coordinates already occurred (`outerforsort` loop).
The JS stores vertices as a flat `[x0,y0,x1,y1,...]` array; the model uses a
list of points (the array always holds complete pairs). -/
def dedupPts (l : List Pt) : List Pt :=
  l.foldl (fun acc p => if p ∈ acc then acc else acc ++ [p]) []

/-- Angle-range bucket of `atan2 v.y v.x`:
`0` for angles in `(-π, 0)`, `1` for angle `0` (including `atan2 0 0 = 0`),
`2` for `(0, π)`, `3` for angle `π`. -/
def angBucket (v : Pt) : ℕ :=
  if v.y < 0 then 0
  else if v.y = 0 ∧ 0 ≤ v.x then 1
  else if 0 < v.y then 2
  else 3

/-- Cross product of two vectors. -/
def crossV (a b : Pt) : ℚ := a.x * b.y - a.y * b.x

/-- Exact decision of `atan2 a.y a.x < atan2 b.y b.x` (the comparator key
`p.polar` of `sort_vertices`): compare the angle-range buckets, and inside the
open half-planes compare by the sign of the cross product. -/
def angLtV (a b : Pt) : Bool :=
  if angBucket a < angBucket b then true
  else if angBucket a = angBucket b then
    decide ((angBucket a = 0 ∨ angBucket a = 2) ∧ 0 < crossV a b)
  else false

/-- Exact decision of `atan2 a.y a.x = atan2 b.y b.x`. -/
def angEqV (a b : Pt) : Bool :=
  decide (angBucket a = angBucket b) &&
    (decide (angBucket a = 1 ∨ angBucket a = 3) || decide (crossV a b = 0))

/-- `sqdist`: squared distance of a point to `(cx, cy)`. -/
def sqdist (p : Pt) (cx cy : ℚ) : ℚ := (p.x - cx) ^ 2 + (p.y - cy) ^ 2

/-- Vector from `(cx, cy)` to `p`. -/
def vsub (p : Pt) (cx cy : ℚ) : Pt := ⟨p.x - cx, p.y - cy⟩

/-- The sort comparator of `sort_vertices`:
`(a, b) => a.polar - b.polar || a.sqdist - b.sqdist`, i.e. strictly before iff
smaller polar angle, ties broken by smaller squared distance. -/
def polarBefore (cx cy : ℚ) (a b : Pt) : Bool :=
  angLtV (vsub a cx cy) (vsub b cx cy) ||
    (angEqV (vsub a cx cy) (vsub b cx cy) &&
      decide (sqdist a cx cy < sqdist b cx cy))

/-- Stable ascending sort by the polar comparator (JS `Array.prototype.sort`
is stable; on the comparator's ties the original order is kept). -/
def sortPolar (cx cy : ℚ) (l : List Pt) : List Pt :=
  l.insertionSort (fun a b => polarBefore cx cy b a = false)

/-- A polygon's state: raw clicked vertices, the derived sorted ring and its
centroid, the triangle lists (current and reference corners), the reference
center used by `transform`, and the rotation/scale fields.
(`main.js` lacks `orig_triangles`/`xc`/`yc`/`escala`; they are unused there.) -/
structure PolygonSt where
  vertices : List Pt
  ordered_vertices : List Pt
  xcm : ℚ
  ycm : ℚ
  triangles : List (Pt × Pt × Pt)
  orig_triangles : List (Pt × Pt × Pt)
  xc : ℚ
  yc : ℚ
  rotation : ℚ
  escala : ℚ
deriving DecidableEq, Repr

/-- A fresh `new Polygon()` (fields not yet assigned in JS are modelled as
`[]`/`0`; `rotation = 0`, `escala = 1` as in the constructor). -/
def PolygonSt.init : PolygonSt :=
  { vertices := [], ordered_vertices := [], xcm := 0, ycm := 0,
    triangles := [], orig_triangles := [], xc := 0, yc := 0,
    rotation := 0, escala := 1 }

/-- x-coordinate of the "center of mass" of the deduplicated vertices.
For an empty list the JS centroid is `0/0 = NaN`; in the model
`(0 : ℚ)/0 = 0` (the ring is empty either way). -/
def centroidX (l : List Pt) : ℚ :=
  ((dedupPts l).map Pt.x).sum / ((dedupPts l).length : ℚ)

/-- y-coordinate of the centroid of the deduplicated vertices. -/
def centroidY (l : List Pt) : ℚ :=
  ((dedupPts l).map Pt.y).sum / ((dedupPts l).length : ℚ)

/-- The sorted ring of a raw vertex list: dedup, then sort by polar angle and
squared distance around the centroid of the deduplicated points. -/
def ringOf (l : List Pt) : List Pt :=
  sortPolar (centroidX l) (centroidY l) (dedupPts l)

/-- `Polygon.sort_vertices`. -/
def sort_vertices (p : PolygonSt) : PolygonSt :=
  { p with xcm := centroidX p.vertices, ycm := centroidY p.vertices,
           ordered_vertices := ringOf p.vertices }

/-! ## Polygon: ear-clipping triangulation (`triangulate`) -/

/-- `p_inside_tri`: `(x, y)` lies strictly inside triangle `p1 p2 p3`
(three same-sign cross products). -/
def p_inside_tri (x y : ℚ) (p1 p2 p3 : Pt) : Bool :=
  let l1 := (x - p1.x) * (p3.y - p1.y) - (p3.x - p1.x) * (y - p1.y)
  let l2 := (x - p2.x) * (p1.y - p2.y) - (p1.x - p2.x) * (y - p2.y)
  let l3 := (x - p3.x) * (p2.y - p3.y) - (p2.x - p3.x) * (y - p3.y)
  decide ((0 < l1 ∧ 0 < l2 ∧ 0 < l3) ∨ (l1 < 0 ∧ l2 < 0 ∧ l3 < 0))

/-- Exact sign decision for `A·√s3 + B·√s1 > 0` (with `s1 s3 ≥ 0`),
used to decide the `is_p2_convex` comparison without square roots. -/
def sqrtCombPos (A B s3 s1 : ℚ) : Bool :=
  if 0 ≤ A ∧ 0 ≤ B then decide ((0 < A ∧ 0 < s3) ∨ (0 < B ∧ 0 < s1))
  else if 0 ≤ A then decide (B ^ 2 * s1 < A ^ 2 * s3)
  else if 0 ≤ B then decide (A ^ 2 * s3 < B ^ 2 * s1)
  else false

/-- `is_p2_convex`: the JS computes `alfa1 = acos(v1·v2 / (|v1||v2|))`,
`alfa2 = acos(v2·v3 / (|v2||v3|))` and tests `alfa1 + alfa2 < π`.
Over exact reals, with all three vectors nonzero this is equivalent to
`cos alfa1 > -cos alfa2`, i.e. `(v1·v2)·|v3| + (v2·v3)·|v1| > 0`, decided by
`sqrtCombPos`.  If any vector is zero the JS quotient is `0/0 = NaN`, `acos`
returns `NaN` and the comparison is false. -/
def is_p2_convex (xcm ycm : ℚ) (p1 p2 p3 : Pt) : Bool :=
  let v1 : Pt := ⟨p1.x - p2.x, p1.y - p2.y⟩
  let v2 : Pt := ⟨xcm - p2.x, ycm - p2.y⟩
  let v3 : Pt := ⟨p3.x - p2.x, p3.y - p2.y⟩
  let s1 := v1.x ^ 2 + v1.y ^ 2
  let s2 := v2.x ^ 2 + v2.y ^ 2
  let s3 := v3.x ^ 2 + v3.y ^ 2
  if s1 = 0 ∨ s2 = 0 ∨ s3 = 0 then false
  else sqrtCombPos (v1.x * v2.x + v1.y * v2.y) (v2.x * v3.x + v2.y * v3.y) s3 s1

/-- One candidate triple test of the inner ear scan: triple
`(points[i % n], points[(i+1) % n], points[(i+2) % n])` is clipped iff no
other point lies strictly inside it and its middle vertex passes
`is_p2_convex`. -/
def earAt (xcm ycm : ℚ) (points : List Pt) (i : ℕ) : Bool :=
  let n := points.length
  let p1 := points.getD (i % n) ⟨0, 0⟩
  let p2 := points.getD ((i + 1) % n) ⟨0, 0⟩
  let p3 := points.getD ((i + 2) % n) ⟨0, 0⟩
  let outros := points.filter (fun p => decide (p ≠ p1 ∧ p ≠ p2 ∧ p ≠ p3))
  outros.all (fun o => !p_inside_tri o.x o.y p1 p2 p3) && is_p2_convex xcm ycm p1 p2 p3

/-- The inner `for (let i = 0;; i++)` scan: the first clippable triple.  The
candidate triples repeat with period `points.length`, so the JS scan finds an
ear iff some `i < points.length` passes; otherwise the JS loops forever
(modelled as `none`). -/
def earScan (xcm ycm : ℚ) (points : List Pt) : Option ℕ :=
  (List.range points.length).find? (fun i => earAt xcm ycm points i)

/-- The `while (points.length > 3)` loop of `triangulate`: clip the first ear
found, emit its triangle, remove the middle vertex
(`points.splice(points.indexOf(p2), 1)`), and rescan; when three points
remain emit them as the final triangle.  `none` = the scan found no ear (the
JS loops forever) or the fuel ran out. -/
def triLoop (fuel : ℕ) (xcm ycm : ℚ) (points : List Pt)
    (acc : List (Pt × Pt × Pt)) : Option (List (Pt × Pt × Pt)) :=
  match fuel with
  | 0 => none
  | fuel + 1 =>
    if points.length ≤ 3 then
      some (acc ++ [(points.getD 0 ⟨0, 0⟩, points.getD 1 ⟨0, 0⟩, points.getD 2 ⟨0, 0⟩)])
    else
      match earScan xcm ycm points with
      | none => none
      | some i =>
        let n := points.length
        let p1 := points.getD (i % n) ⟨0, 0⟩
        let p2 := points.getD ((i + 1) % n) ⟨0, 0⟩
        let p3 := points.getD ((i + 2) % n) ⟨0, 0⟩
        triLoop fuel xcm ycm (points.eraseIdx (points.indexOf p2)) (acc ++ [(p1, p2, p3)])

/-- `update_center`: the reference center is the mean of all reference
triangle corners (shared ring vertices counted once per triangle). -/
def update_center (p : PolygonSt) : PolygonSt :=
  let xs := (p.orig_triangles.map (fun t => t.1.x + t.2.1.x + t.2.2.x)).sum
  let ys := (p.orig_triangles.map (fun t => t.1.y + t.2.1.y + t.2.2.y)).sum
  { p with xc := xs / (3 * (p.orig_triangles.length : ℚ)),
           yc := ys / (3 * (p.orig_triangles.length : ℚ)) }

/-- `Polygon.triangulate` (part_002 revision): requires `sort_vertices` to
have run.  On success the current triangles and the reference copies hold the
same coordinates (`orig_triangles` stores fresh `{x, y}` copies of the ring
vertices), and `update_center` runs.  With fewer than 3 ring vertices both
lists are reset to `[]` and the center is left untouched.  `none` models the
JS ear scan spinning forever (or insufficient fuel). -/
def triangulate (p : PolygonSt) : Option PolygonSt :=
  if p.ordered_vertices.length < 3 then
    some { p with triangles := [], orig_triangles := [] }
  else
    match triLoop p.ordered_vertices.length p.xcm p.ycm p.ordered_vertices [] with
    | none => none
    | some tris =>
      some (update_center { p with triangles := tris, orig_triangles := tris })

/-! ## Polygon: mutating operations -/

/-- `Polygon.add_vertex(x, y)`: push the vertex, re-sort, re-triangulate. -/
def add_vertex (p : PolygonSt) (x y : ℚ) : Option PolygonSt :=
  triangulate (sort_vertices { p with vertices := p.vertices ++ [⟨x, y⟩] })

/-- `Polygon.update_last_vertex(x, y)`: overwrite the last vertex (the
rubber-band vertex), re-sort, re-triangulate. -/
def update_last_vertex (p : PolygonSt) (x y : ℚ) : Option PolygonSt :=
  triangulate (sort_vertices { p with vertices := p.vertices.dropLast ++ [⟨x, y⟩] })

/-- `Polygon.translate` in the `main.js` revision: shift every raw vertex,
then re-sort and re-triangulate. -/
def translateMain (p : PolygonSt) (dx dy : ℚ) : Option PolygonSt :=
  triangulate (sort_vertices
    { p with vertices := p.vertices.map (fun q => ⟨q.x + dx, q.y + dy⟩) })

/-- `Polygon.transform` (part_002) with the cosine/sine of
`rotation * π/180` passed in as exact values `c`, `s`: every current corner
is recomputed as rotation+scale of the corresponding reference corner about
`(xc, yc)`.  (In JS the ring vertices are shared object references processed
once each — guarded by the `rotacionados_escalados` list — and the reference
copies of a shared vertex hold equal coordinates, so the effect is exactly
per-corner.) -/
def transformWith (c s : ℚ) (p : PolygonSt) : PolygonSt :=
  let f : Pt → Pt := fun q =>
    ⟨p.xc + p.escala * ((q.x - p.xc) * c - (q.y - p.yc) * s),
     p.yc + p.escala * ((q.x - p.xc) * s + (q.y - p.yc) * c)⟩
  { p with triangles := p.orig_triangles.map (fun t => (f t.1, f t.2.1, f t.2.2)) }

/-- `Polygon.translate` in the part_002 revision: shift every reference
triangle corner (each distinct corner object once — the reference copies are
one fresh object per triangle corner, so every corner is shifted), recompute
the center, and re-apply `transform`.  The raw `vertices` and the sorted
`ordered_vertices` are NOT touched and no re-sort/re-triangulation happens;
`c`, `s` are the cosine/sine of the current rotation. -/
def translateP2 (c s : ℚ) (p : PolygonSt) (dx dy : ℚ) : PolygonSt :=
  let p1 := { p with orig_triangles :=
    p.orig_triangles.map (fun t =>
      (⟨t.1.x + dx, t.1.y + dy⟩, ⟨t.2.1.x + dx, t.2.1.y + dy⟩,
       ⟨t.2.2.x + dx, t.2.2.y + dy⟩)) }
  transformWith c s (update_center p1)

/-! ## `Primitive.delete` and polygon finalization -/

/-- `Primitive.delete`:
`const index = this.constructor.list.indexOf(this); list.splice(index, 1)`.
When the receiver is absent, JS `indexOf` returns `-1` and `splice(-1, 1)`
removes the LAST element of the list. -/
def jsDelete {α : Type} [DecidableEq α] (l : List α) (a : α) : List α :=
  if a ∈ l then l.eraseIdx (l.indexOf a) else l.dropLast

/-- `finaliza_polygon` acting on the scene's polygon list, given the polygon
being drawn (`controle.polygon_tmp`, a member of `Polygon.list`): pop the
rubber-band vertex (two `vertices.pop()` calls), re-sort and re-triangulate
(in place — the list sees the update), then delete the polygon iff fewer
than 3 raw vertices remain (`vertices.length/2 < 3` on the flat array). -/
def finaliza_polygon (polys : List PolygonSt) (tmp : PolygonSt) :
    Option (List PolygonSt) :=
  match triangulate (sort_vertices { tmp with vertices := tmp.vertices.dropLast }) with
  | none => none
  | some t2 =>
    let polys2 := polys.map (fun q => if q = tmp then t2 else q)
    if t2.vertices.length < 3 then some (jsDelete polys2 t2) else some polys2

/-! ## Point picking -/

/-- `Point.pick`'s per-point test: the query lies strictly inside the
axis-aligned tolerance square of the point. -/
def pointHit (p : Pt) (xm ym : ℚ) : Bool :=
  decide (p.x - tol < xm ∧ xm < p.x + tol ∧ p.y - tol < ym ∧ ym < p.y + tol)

/-- `Point.pick(xm, ym)`: scan `list.slice().reverse()` (most recently
created first) and return the first hit. -/
def pointPick (ps : List Pt) (xm ym : ℚ) : Option Pt :=
  ps.reverse.find? (fun p => pointHit p xm ym)

/-! ## Line picking: outcodes and the boundary-projection loop -/

/-- A line segment as read by `Line.pick`: current endpoints. -/
structure Seg where
  x1 : ℚ
  y1 : ℚ
  x2 : ℚ
  y2 : ℚ
deriving DecidableEq, Repr

/-- The 4-bit outcode `[left, right, down, up]` of `Line.encode`, modelled
with one flag per bit. -/
structure Code where
  left : Bool
  right : Bool
  down : Bool
  up : Bool
deriving DecidableEq, Repr

/-- `Line.encode(x, y, xm, ym)`. -/
def encode (x y xm ym : ℚ) : Code :=
  ⟨decide (x < xm - tol), decide (x > xm + tol),
   decide (y < ym - tol), decide (y > ym + tol)⟩

/-- `code == 0b0000`. -/
def Code.isZero (c : Code) : Bool := !c.left && !c.right && !c.down && !c.up

/-- `(code_p1 & code_p2) != 0b0000`. -/
def Code.shares (c d : Code) : Bool :=
  (c.left && d.left) || (c.right && d.right) || (c.down && d.down) || (c.up && d.up)

/-- A JavaScript number that may be non-finite: the slope
`m = (y2 - y1)/(x2 - x1)` is `Infinity`/`-Infinity` for vertical segments and
`NaN` for coincident endpoints. -/
inductive JsNum where
  | fin (q : ℚ)
  | pinf
  | ninf
  | nan
deriving DecidableEq, Repr

/-- JS division `a / b`.  (ℚ has no signed zero; `a = 0, b = 0` gives `NaN`.) -/
def jsDiv (a b : ℚ) : JsNum :=
  if b ≠ 0 then .fin (a / b) else if 0 < a then .pinf else if a < 0 then .ninf else .nan

/-- JS `1/m`.  `1/Infinity = 0`, `1/(-Infinity) = -0` (both `0` in ℚ).
For `m = 0` JS yields `±Infinity` depending on the sign of the zero; ℚ has a
single zero and `pinf` is chosen — in `Line.pick` this branch is unreachable
(a horizontal segment with a `down`/`up` outcode on `p1` has the same outcode
on `p2`, so the trivial-reject test fires first). -/
def jsInv : JsNum → JsNum
  | .fin q => if q = 0 then .pinf else .fin q⁻¹
  | .pinf => .fin 0
  | .ninf => .fin 0
  | .nan => .nan

/-- `base + m * r` for the boundary-projection updates.  A non-finite `m`
would take the coordinate out of ℚ (to `±Infinity` or `NaN`): modelled as
`none` (shown unreachable in `Line.pick`). -/
def jsMulAdd (m : JsNum) (r base : ℚ) : Option ℚ :=
  match m with
  | .fin q => some (base + q * r)
  | _ => none

/-- Result of the boundary-projection loop on one segment: trivial accept
(return the line), trivial reject (skip to the next line), or the model left
the rational domain (JS produced a non-finite coordinate — unreachable). -/
inductive ClipRes where
  | hit
  | reject
  | oob
deriving DecidableEq, Repr

/-- One iteration body of the `while (true)` loop of `Line.pick`. -/
inductive StepRes where
  | done (r : ClipRes)
  | next (x y : ℚ)
deriving DecidableEq, Repr

/-- The body of the `while (true)` loop: encode the moving endpoint, test
trivial accept (`code_p1 == 0 || code_p2 == 0`) and trivial reject
(`code_p1 & code_p2 != 0`), otherwise project the moving endpoint onto the
next tolerance-rectangle boundary in the priority order
left, right, down, up.  The final `else` of the source returns the line;
it is unreachable (a nonzero outcode has a set bit). -/
def clipStep (xm ym : ℚ) (m : JsNum) (codeP2 : Code) (x1 y1 : ℚ) : StepRes :=
  if (encode x1 y1 xm ym).isZero || codeP2.isZero then .done .hit
  else if (encode x1 y1 xm ym).shares codeP2 then .done .reject
  else if (encode x1 y1 xm ym).left then
    match jsMulAdd m (xm - tol - x1) y1 with
    | some yNew => .next (xm - tol) yNew
    | none => .done .oob
  else if (encode x1 y1 xm ym).right then
    match jsMulAdd m (xm + tol - x1) y1 with
    | some yNew => .next (xm + tol) yNew
    | none => .done .oob
  else if (encode x1 y1 xm ym).down then
    match jsMulAdd (jsInv m) (ym - tol - y1) x1 with
    | some xNew => .next xNew (ym - tol)
    | none => .done .oob
  else if (encode x1 y1 xm ym).up then
    match jsMulAdd (jsInv m) (ym + tol - y1) x1 with
    | some xNew => .next xNew (ym + tol)
    | none => .done .oob
  else .done .hit

/-- The `while (true)` loop with fuel (`none` = fuel exhausted; the loop
itself is proved to resolve within 8 iterations). -/
def clipLoop (fuel : ℕ) (xm ym : ℚ) (m : JsNum) (codeP2 : Code) (x1 y1 : ℚ) :
    Option ClipRes :=
  match fuel with
  | 0 => none
  | fuel + 1 =>
    match clipStep xm ym m codeP2 x1 y1 with
    | .done r => some r
    | .next x y => clipLoop fuel xm ym m codeP2 x y

/-- The whole per-segment test of `Line.pick`: slope from the segment's
endpoints, fixed outcode of `p2`, loop moving `p1`. -/
def lineClip (l : Seg) (xm ym : ℚ) (fuel : ℕ) : Option ClipRes :=
  clipLoop fuel xm ym (jsDiv (l.y2 - l.y1) (l.x2 - l.x1))
    (encode l.x2 l.y2 xm ym) l.x1 l.y1

/-- Per-segment hit (8 iterations of fuel always suffice, see the
termination theorem). -/
def lineHit (l : Seg) (xm ym : ℚ) : Bool := decide (lineClip l xm ym 8 = some .hit)

/-- `Line.pick(xm, ym)`: scan segments most-recently-created first, return
the first hit. -/
def linePick (ls : List Seg) (xm ym : ℚ) : Option Seg :=
  ls.reverse.find? (fun l => lineHit l xm ym)

/-! ## `Line.rotate` (main.js revision) -/

/-- A segment with reference (`_orig`) coordinates and the rotation field. -/
structure RotLine where
  x1 : ℚ
  y1 : ℚ
  x2 : ℚ
  y2 : ℚ
  x1o : ℚ
  y1o : ℚ
  x2o : ℚ
  y2o : ℚ
  rotation : ℚ
deriving DecidableEq, Repr

/-- `Line.rotate(graus)` with the rounded cosine/sine passed in explicitly:
the JS computes `cos = Math.cos(theta).toFixed(3)` and
`sin = Math.sin(theta).toFixed(3)` (3-decimal strings coerced back to
numbers); `c`, `s` stand for those rounded values, which are exact decimal
rationals.  The current endpoints are recomputed from the reference
endpoints about the reference midpoint — never from the previous current
endpoints. -/
def rotateWith (l : RotLine) (graus c s : ℚ) : RotLine :=
  let xc := (l.x1o + l.x2o) / 2
  let yc := (l.y1o + l.y2o) / 2
  { l with
    rotation := graus
    x1 := xc + (l.x1o - xc) * c - (l.y1o - yc) * s
    y1 := yc + (l.x1o - xc) * s + (l.y1o - yc) * c
    x2 := xc + (l.x2o - xc) * c - (l.y2o - yc) * s
    y2 := yc + (l.x2o - xc) * s + (l.y2o - yc) * c }

/-- `Number.prototype.toFixed(3)` on an exact real, as an exact rational:
the integer `n` minimizing `|n/1000 - x|`, ties to the larger `n`
(ECMA-262), i.e. `⌊1000 x + 1/2⌋ / 1000`. -/
noncomputable def toFixed3 (x : ℝ) : ℚ := (⌊x * 1000 + 1 / 2⌋ : ℤ) / 1000

/-! ## Convex hull: `merge_hull` and the tangent searches -/

/-- `orientacao_3_pontos`: `0` = collinear, `> 0` = clockwise,
`< 0` = counter-clockwise. -/
def orient (p1 p2 p3 : Pt) : ℚ :=
  (p2.y - p1.y) * (p3.x - p2.x) - (p2.x - p1.x) * (p3.y - p2.y)

/-- `ordena_anti_horario2(points)`: stable sort by polar angle (squared
distance on ties) around the arithmetic mean of the points. -/
def ordenaAH (points : List Pt) : List Pt :=
  let xc := (points.map Pt.x).sum / (points.length : ℚ)
  let yc := (points.map Pt.y).sum / (points.length : ℚ)
  sortPolar xc yc points

/-- The rightmost point of a hull (`if (p.x > a.x) a = p` over the list,
starting from the head): first occurrence of the maximal x. -/
def rightmost (a0 : Pt) (l : List Pt) : Pt :=
  l.foldl (fun acc p => if p.x > acc.x then p else acc) a0

/-- The leftmost point of a hull (strict `<`, first occurrence kept). -/
def leftmost (b0 : Pt) (l : List Pt) : Pt :=
  l.foldl (fun acc p => if p.x < acc.x then p else acc) b0

/-- The advancing loop of `get_tangente_inf`, with fuel (the JS `while(true)`
loop has no structural bound).  Each iteration recomputes `a`, `b`, moves the
left index backward while `orient(a, a-1, b) < 0` (note the second test uses
the already-updated `a`), the right index forward while
`orient(a, b, b+1) > 0`, and stops when neither moved. -/
def tangentInfLoop (fuel : ℕ) (he hd : List Pt) (aIdx bIdx : ℕ) :
    Option (Pt × Pt) :=
  match fuel with
  | 0 => none
  | fuel + 1 =>
    let a := he.getD aIdx ⟨0, 0⟩
    let b := hd.getD bIdx ⟨0, 0⟩
    let am1 := he.getD ((aIdx + he.length - 1) % he.length) ⟨0, 0⟩
    let bp1 := hd.getD ((bIdx + 1) % hd.length) ⟨0, 0⟩
    if orient a am1 b < 0 then
      if orient am1 b bp1 > 0 then
        tangentInfLoop fuel he hd ((aIdx + he.length - 1) % he.length) ((bIdx + 1) % hd.length)
      else
        tangentInfLoop fuel he hd ((aIdx + he.length - 1) % he.length) bIdx
    else
      if orient a b bp1 > 0 then
        tangentInfLoop fuel he hd aIdx ((bIdx + 1) % hd.length)
      else some (a, b)

/-- The advancing loop of `get_tangente_sup` (left index forward while
`orient(a, a+1, b) > 0`, right index backward while
`orient(a, b, b-1) < 0`). -/
def tangentSupLoop (fuel : ℕ) (he hd : List Pt) (aIdx bIdx : ℕ) :
    Option (Pt × Pt) :=
  match fuel with
  | 0 => none
  | fuel + 1 =>
    let a := he.getD aIdx ⟨0, 0⟩
    let b := hd.getD bIdx ⟨0, 0⟩
    let ap1 := he.getD ((aIdx + 1) % he.length) ⟨0, 0⟩
    let bm1 := hd.getD ((bIdx + hd.length - 1) % hd.length) ⟨0, 0⟩
    if orient a ap1 b > 0 then
      if orient ap1 b bm1 < 0 then
        tangentSupLoop fuel he hd ((aIdx + 1) % he.length) ((bIdx + hd.length - 1) % hd.length)
      else
        tangentSupLoop fuel he hd ((aIdx + 1) % he.length) bIdx
    else
      if orient a b bm1 < 0 then
        tangentSupLoop fuel he hd aIdx ((bIdx + hd.length - 1) % hd.length)
      else some (a, b)

/-- `get_tangente_inf(hull_esq, hull_dir)`: start from the rightmost point
of the left hull and the leftmost point of the right hull. -/
def getTangenteInf (he hd : List Pt) : Option (Pt × Pt) :=
  match he, hd with
  | a0 :: he', b0 :: hd' =>
    let a := rightmost a0 he'
    let b := leftmost b0 hd'
    tangentInfLoop ((he.length + hd.length + 1) * 4) he hd (he.indexOf a) (hd.indexOf b)
  | _, _ => none

/-- `get_tangente_sup(hull_esq, hull_dir)`. -/
def getTangenteSup (he hd : List Pt) : Option (Pt × Pt) :=
  match he, hd with
  | a0 :: he', b0 :: hd' =>
    let a := rightmost a0 he'
    let b := leftmost b0 hd'
    tangentSupLoop ((he.length + hd.length + 1) * 4) he hd (he.indexOf a) (hd.indexOf b)
  | _, _ => none

/-- The left-hull merge walk: starting from the lower-tangent index, push
`hull_esq[i]` and step `i` backward (mod length) until the upper-tangent
index is reached.  Terminates within `length` steps; fuel models the bound. -/
def walkBack (fuel : ℕ) (l : List Pt) (i target : ℕ) (acc : List Pt) :
    Option (List Pt) :=
  match fuel with
  | 0 => none
  | fuel + 1 =>
    if i = target then some acc
    else walkBack fuel l ((i + l.length - 1) % l.length) target (acc ++ [l.getD i ⟨0, 0⟩])

/-- The right-hull merge walk: push `hull_dir[i]` and step `i` forward
(mod length) until the upper-tangent index is reached. -/
def walkFwd (fuel : ℕ) (l : List Pt) (i target : ℕ) (acc : List Pt) :
    Option (List Pt) :=
  match fuel with
  | 0 => none
  | fuel + 1 =>
    if i = target then some acc
    else walkFwd fuel l ((i + 1) % l.length) target (acc ++ [l.getD i ⟨0, 0⟩])

/-- The combine step of `merge_hull`: re-order both sub-hulls
counter-clockwise, find both tangents, then walk the left hull backward from
the lower tangent to the upper tangent and the right hull forward, starting
the output with the two upper-tangent vertices. -/
def mergeStep (he0 hd0 : List Pt) : Option (List Pt) :=
  let he := ordenaAH he0
  let hd := ordenaAH hd0
  match getTangenteInf he hd, getTangenteSup he hd with
  | some ti, some ts =>
    let aInf := he.indexOf ti.1
    let aSup := he.indexOf ts.1
    match walkBack (he.length + 1) he aInf aSup [he.getD aSup ⟨0, 0⟩] with
    | none => none
    | some hullL =>
      let bInf := hd.indexOf ti.2
      let bSup := hd.indexOf ts.2
      walkFwd (hd.length + 1) hd bInf bSup (hullL ++ [hd.getD bSup ⟨0, 0⟩])
  | _, _ => none

/-- `merge_hull(points)`: fewer than 3 points are returned as-is; otherwise
sort by x (stable), split at `⌊n/2⌋`, recurse on both halves and combine.
`fuel` bounds the recursion depth and the tangent loops; `none` = fuel
exhausted (the JS has no bound). -/
def mergeHull (fuel : ℕ) (points : List Pt) : Option (List Pt) :=
  match fuel with
  | 0 => none
  | fuel + 1 =>
    if points.length < 3 then some points
    else
      let ordenados := points.insertionSort (fun a b => a.x ≤ b.x)
      let esquerda := ordenados.take (ordenados.length / 2)
      let direita := ordenados.drop (ordenados.length / 2)
      match mergeHull fuel esquerda, mergeHull fuel direita with
      | some he, some hd => mergeStep he hd
      | _, _ => none

/-! ## Shared helper lemmas -/

section Proofs

/- Batteries marks the rational-number operations `@[irreducible]`; re-allow
unfolding so that concrete program runs can be evaluated by `decide`
(the kernel ignores reducibility annotations either way). -/
attribute [local semireducible] Rat.mul Rat.add Rat.sub Rat.inv Rat.ofScientific

lemma eraseIdx_indexOf_append {α : Type} [DecidableEq α] (a : α) :
    ∀ (l1 : List α) (l2 : List α), a ∉ l1 →
      (l1 ++ a :: l2).eraseIdx ((l1 ++ a :: l2).indexOf a) = l1 ++ l2 := by
  intro l1
  induction l1 with
  | nil =>
    intro l2 _
    simp [List.indexOf_cons]
  | cons b t ih =>
    intro l2 h
    have hb : (b == a) = false := by
      simp only [beq_eq_false_iff_ne]
      intro hba
      exact h (hba ▸ List.mem_cons_self b t)
    have ht : a ∉ t := fun hat => h (List.mem_cons_of_mem b hat)
    simp only [List.cons_append, List.indexOf_cons, hb, cond_false,
      List.eraseIdx_cons_succ]
    rw [ih l2 ht]

lemma jsDelete_present {α : Type} [DecidableEq α] (a : α) (l1 l2 : List α)
    (h : a ∉ l1) : jsDelete (l1 ++ a :: l2) a = l1 ++ l2 := by
  unfold jsDelete
  rw [if_pos (by simp), eraseIdx_indexOf_append a l1 l2 h]

lemma jsDelete_absent {α : Type} [DecidableEq α] (a : α) (l : List α)
    (h : a ∉ l) : jsDelete l a = l.dropLast := by
  unfold jsDelete
  rw [if_neg h]

lemma map_if_replace_of_not_mem (tmp t2 : PolygonSt) :
    ∀ l : List PolygonSt, tmp ∉ l →
      l.map (fun q => if q = tmp then t2 else q) = l := by
  intro l
  induction l with
  | nil => intro _; rfl
  | cons b t ih =>
    intro h
    have hb : b ≠ tmp := fun e => h (e ▸ List.mem_cons_self b t)
    have ht : tmp ∉ t := fun hm => h (List.mem_cons_of_mem b hm)
    simp only [List.map_cons, if_neg hb, ih ht]

lemma map_replace_append (l1 l2 : List PolygonSt) (tmp t2 : PolygonSt)
    (h1 : tmp ∉ l1) (h2 : tmp ∉ l2) :
    (l1 ++ tmp :: l2).map (fun q => if q = tmp then t2 else q) =
      l1 ++ t2 :: l2 := by
  simp [List.map_append, List.map_cons,
    map_if_replace_of_not_mem tmp t2 l1 h1, map_if_replace_of_not_mem tmp t2 l2 h2]

lemma find?_reverse_last {α : Type} (hit : α → Bool) (l1 l2 l3 : List α)
    (a b : α) (hb : hit b = true) (h3 : ∀ c ∈ l3, hit c = false) :
    (l1 ++ a :: l2 ++ b :: l3).reverse.find? hit = some b := by
  have hrev : (l1 ++ a :: l2 ++ b :: l3).reverse =
      l3.reverse ++ b :: (l2.reverse ++ a :: l1.reverse) := by
    simp
  rw [hrev, List.find?_append]
  have h0 : l3.reverse.find? hit = none := by
    rw [List.find?_eq_none]
    intro x hx
    simp [h3 x (List.mem_reverse.mp hx)]
  rw [h0, List.find?_cons_of_pos _ hb]
  rfl

/-! ## C9: `Primitive.delete` semantics -/

/-- C9: `delete` removes exactly the receiver from the owning class list when
the receiver is present (first occurrence, as with JS `indexOf` on an
identity-unique object); when the receiver is absent, `indexOf` yields `-1`
and `splice(-1, 1)` removes the last element instead, so a double delete
destroys the most recently created remaining primitive. -/
theorem c9_delete_semantics {α : Type} [DecidableEq α] (a : α) :
    (∀ l1 l2 : List α, a ∉ l1 → jsDelete (l1 ++ a :: l2) a = l1 ++ l2) ∧
    (∀ l : List α, a ∉ l → jsDelete l a = l.dropLast) ∧
    (∀ l1 l2 : List α, a ∉ l1 → a ∉ l2 →
      jsDelete (jsDelete (l1 ++ a :: l2) a) a = (l1 ++ l2).dropLast) := by
  refine ⟨fun l1 l2 h => jsDelete_present a l1 l2 h,
          fun l h => jsDelete_absent a l h, fun l1 l2 h1 h2 => ?_⟩
  rw [jsDelete_present a l1 l2 h1]
  exact jsDelete_absent a (l1 ++ l2) (by
    intro hmem
    rcases List.mem_append.mp hmem with h | h
    · exact h1 h
    · exact h2 h)

/-- Witness for C9 at a concrete list. -/
theorem c9_delete_semantics_witness :
    jsDelete [1, 2, 3] 2 = [1, 3] ∧
    jsDelete [1, 3] 2 = [1] ∧
    jsDelete (jsDelete [1, 2, 3] 2) 2 = [1] :=
  ⟨(c9_delete_semantics 2).1 [1] [3] (by decide),
   (c9_delete_semantics 2).2.1 [1, 3] (by decide),
   (c9_delete_semantics 2).2.2 [1] [3] (by decide) (by decide)⟩

/-! ## C6: `merge_hull` base case -/

/-- C6 counterexample: the base case of `merge_hull` is `points.length < 3`,
not `≤ 3`: an input of exactly 3 points is split and merged, and the merged
hull is in general a different list than the input (here the input order
`[(1,1), (0,0), (2,0)]` comes back x-sorted). -/
theorem c6_counterexample :
    mergeHull 8 [⟨1, 1⟩, ⟨0, 0⟩, ⟨2, 0⟩] = some [⟨0, 0⟩, ⟨1, 1⟩, ⟨2, 0⟩] ∧
    ([⟨0, 0⟩, ⟨1, 1⟩, ⟨2, 0⟩] : List Pt) ≠ [⟨1, 1⟩, ⟨0, 0⟩, ⟨2, 0⟩] := by
  constructor
  · decide
  · decide

/-- C6 (amended): for every input of at most 2 points (`points.length < 3`),
`merge_hull` returns the input point list as-is; an input of exactly 3
points goes through the divide-and-merge path instead. -/
theorem c6_base_case (fuel : ℕ) (points : List Pt) (h : points.length < 3) :
    mergeHull (fuel + 1) points = some points := by
  unfold mergeHull
  rw [if_pos h]

/-- Witness for C6 (amended) at a concrete 2-point list. -/
theorem c6_base_case_witness :
    mergeHull 1 [⟨5, 5⟩, ⟨1, 2⟩] = some [⟨5, 5⟩, ⟨1, 2⟩] :=
  c6_base_case 0 [⟨5, 5⟩, ⟨1, 2⟩] (by decide)

/-! ## C4: deletion policy at polygon finalization -/

/-- C4 counterexample: finalizing a polygon whose raw vertices are
`[(0,0), (0,0), (1,1), (5,5)]` (the last one the rubber-band vertex) leaves a
polygon with 3 raw but only 2 DISTINCT vertices in the scene: the deletion
test of `finaliza_polygon` counts raw vertices (`vertices.length/2 < 3`), so
a polygon with fewer than 3 distinct vertices survives, contradicting the
claim. -/
theorem c4_counterexample :
    (finaliza_polygon
        [{ PolygonSt.init with vertices := [⟨0, 0⟩, ⟨0, 0⟩, ⟨1, 1⟩, ⟨5, 5⟩] }]
        { PolygonSt.init with vertices := [⟨0, 0⟩, ⟨0, 0⟩, ⟨1, 1⟩, ⟨5, 5⟩] }).map
      (fun l => l.map (fun p => (p.vertices, (dedupPts p.vertices).length))) =
      some [([⟨0, 0⟩, ⟨0, 0⟩, ⟨1, 1⟩], 2)] := by
  decide

/-- C4 (amended): after finalization (which drops the rubber-band vertex and
re-sorts/re-triangulates), the polygon is removed from the scene iff its
remaining RAW vertex count is below 3; duplicated coordinates are counted,
so distinctness plays no role in the deletion test. -/
theorem c4_finalize_deletion (l1 l2 : List PolygonSt) (tmp t2 : PolygonSt)
    (ht : triangulate (sort_vertices { tmp with vertices := tmp.vertices.dropLast }) = some t2)
    (h1 : tmp ∉ l1) (h2 : tmp ∉ l2) (h3 : t2 ∉ l1) :
    (t2.vertices.length < 3 →
      finaliza_polygon (l1 ++ tmp :: l2) tmp = some (l1 ++ l2)) ∧
    (3 ≤ t2.vertices.length →
      finaliza_polygon (l1 ++ tmp :: l2) tmp = some (l1 ++ t2 :: l2)) := by
  unfold finaliza_polygon
  rw [ht]
  simp only [map_replace_append l1 l2 tmp t2 h1 h2]
  constructor
  · intro hlt
    rw [if_pos hlt, jsDelete_present t2 l1 l2 h3]
  · intro hge
    rw [if_neg (by omega)]

/-- Witness for C4 (amended) at the concrete counterexample polygon: kept
because 3 raw vertices remain. -/
theorem c4_finalize_deletion_witness :
    finaliza_polygon
        [{ PolygonSt.init with vertices := [⟨0, 0⟩, ⟨0, 0⟩, ⟨1, 1⟩, ⟨5, 5⟩] }]
        { PolygonSt.init with vertices := [⟨0, 0⟩, ⟨0, 0⟩, ⟨1, 1⟩, ⟨5, 5⟩] } =
      some [{ PolygonSt.init with
                vertices := [⟨0, 0⟩, ⟨0, 0⟩, ⟨1, 1⟩],
                ordered_vertices := [⟨0, 0⟩, ⟨1, 1⟩],
                xcm := 1/2, ycm := 1/2 }] := by
  have h := (c4_finalize_deletion [] []
    { PolygonSt.init with vertices := [⟨0, 0⟩, ⟨0, 0⟩, ⟨1, 1⟩, ⟨5, 5⟩] }
    { PolygonSt.init with
        vertices := [⟨0, 0⟩, ⟨0, 0⟩, ⟨1, 1⟩],
        ordered_vertices := [⟨0, 0⟩, ⟨1, 1⟩],
        xcm := 1/2, ycm := 1/2 }
    (by decide) (by decide) (by decide) (by decide)).2 (by decide)
  simpa using h

/-! ## C2: the merged hull is a subset of the input points -/

lemma mem_sortPolar {cx cy : ℚ} {l : List Pt} {a : Pt} :
    a ∈ sortPolar cx cy l ↔ a ∈ l :=
  List.mem_insertionSort _

lemma mem_ordenaAH {l : List Pt} {a : Pt} : a ∈ ordenaAH l ↔ a ∈ l :=
  mem_sortPolar

lemma rightmost_mem : ∀ (l : List Pt) (a0 : Pt),
    rightmost a0 l = a0 ∨ rightmost a0 l ∈ l := by
  intro l
  induction l with
  | nil => intro a0; left; rfl
  | cons b t ih =>
    intro a0
    have hstep : rightmost a0 (b :: t) = rightmost (if b.x > a0.x then b else a0) t := rfl
    rcases ih (if b.x > a0.x then b else a0) with h | h
    · rw [hstep, h]
      by_cases hb : b.x > a0.x
      · right; rw [if_pos hb]; exact List.mem_cons_self b t
      · left; rw [if_neg hb]
    · right
      rw [hstep]
      exact List.mem_cons_of_mem b h

lemma leftmost_mem : ∀ (l : List Pt) (b0 : Pt),
    leftmost b0 l = b0 ∨ leftmost b0 l ∈ l := by
  intro l
  induction l with
  | nil => intro b0; left; rfl
  | cons b t ih =>
    intro b0
    have hstep : leftmost b0 (b :: t) = leftmost (if b.x < b0.x then b else b0) t := rfl
    rcases ih (if b.x < b0.x then b else b0) with h | h
    · rw [hstep, h]
      by_cases hb : b.x < b0.x
      · right; rw [if_pos hb]; exact List.mem_cons_self b t
      · left; rw [if_neg hb]
    · right
      rw [hstep]
      exact List.mem_cons_of_mem b h

lemma getD_mem {l : List Pt} {i : ℕ} (h : i < l.length) (d : Pt) :
    l.getD i d ∈ l := by
  rw [List.getD_eq_getElem l d h]
  exact List.getElem_mem h

lemma tangentInfLoop_mem {he hd : List Pt} (hhe : 0 < he.length)
    (hhd : 0 < hd.length) :
    ∀ (fuel aIdx bIdx : ℕ), aIdx < he.length → bIdx < hd.length →
      ∀ {a b : Pt}, tangentInfLoop fuel he hd aIdx bIdx = some (a, b) →
        a ∈ he ∧ b ∈ hd := by
  intro fuel
  induction fuel with
  | zero => intro aIdx bIdx _ _ a b h; cases h
  | succ fuel ih =>
    intro aIdx bIdx ha hb a b h
    simp only [tangentInfLoop] at h
    split at h
    · split at h
      · exact ih _ _ (Nat.mod_lt _ hhe) (Nat.mod_lt _ hhd) h
      · exact ih _ _ (Nat.mod_lt _ hhe) hb h
    · split at h
      · exact ih _ _ ha (Nat.mod_lt _ hhd) h
      · simp only [Option.some.injEq, Prod.mk.injEq] at h
        obtain ⟨rfl, rfl⟩ := h
        exact ⟨getD_mem ha _, getD_mem hb _⟩

lemma tangentSupLoop_mem {he hd : List Pt} (hhe : 0 < he.length)
    (hhd : 0 < hd.length) :
    ∀ (fuel aIdx bIdx : ℕ), aIdx < he.length → bIdx < hd.length →
      ∀ {a b : Pt}, tangentSupLoop fuel he hd aIdx bIdx = some (a, b) →
        a ∈ he ∧ b ∈ hd := by
  intro fuel
  induction fuel with
  | zero => intro aIdx bIdx _ _ a b h; cases h
  | succ fuel ih =>
    intro aIdx bIdx ha hb a b h
    simp only [tangentSupLoop] at h
    split at h
    · split at h
      · exact ih _ _ (Nat.mod_lt _ hhe) (Nat.mod_lt _ hhd) h
      · exact ih _ _ (Nat.mod_lt _ hhe) hb h
    · split at h
      · exact ih _ _ ha (Nat.mod_lt _ hhd) h
      · simp only [Option.some.injEq, Prod.mk.injEq] at h
        obtain ⟨rfl, rfl⟩ := h
        exact ⟨getD_mem ha _, getD_mem hb _⟩

lemma getTangenteInf_mem {he hd : List Pt} {a b : Pt}
    (h : getTangenteInf he hd = some (a, b)) : a ∈ he ∧ b ∈ hd := by
  match he, hd, h with
  | a0 :: he', b0 :: hd', h =>
    have hra : rightmost a0 he' ∈ a0 :: he' := by
      rcases rightmost_mem he' a0 with e | e
      · rw [e]; exact List.mem_cons_self _ _
      · exact List.mem_cons_of_mem _ e
    have hlb : leftmost b0 hd' ∈ b0 :: hd' := by
      rcases leftmost_mem hd' b0 with e | e
      · rw [e]; exact List.mem_cons_self _ _
      · exact List.mem_cons_of_mem _ e
    exact tangentInfLoop_mem (by simp) (by simp) _ _ _
      (List.indexOf_lt_length.mpr hra) (List.indexOf_lt_length.mpr hlb) h

lemma getTangenteSup_mem {he hd : List Pt} {a b : Pt}
    (h : getTangenteSup he hd = some (a, b)) : a ∈ he ∧ b ∈ hd := by
  match he, hd, h with
  | a0 :: he', b0 :: hd', h =>
    have hra : rightmost a0 he' ∈ a0 :: he' := by
      rcases rightmost_mem he' a0 with e | e
      · rw [e]; exact List.mem_cons_self _ _
      · exact List.mem_cons_of_mem _ e
    have hlb : leftmost b0 hd' ∈ b0 :: hd' := by
      rcases leftmost_mem hd' b0 with e | e
      · rw [e]; exact List.mem_cons_self _ _
      · exact List.mem_cons_of_mem _ e
    exact tangentSupLoop_mem (by simp) (by simp) _ _ _
      (List.indexOf_lt_length.mpr hra) (List.indexOf_lt_length.mpr hlb) h

lemma walkBack_mem {l : List Pt} (hl : 0 < l.length) :
    ∀ (fuel i target : ℕ) (acc out : List Pt), i < l.length →
      walkBack fuel l i target acc = some out →
      ∀ p ∈ out, p ∈ acc ∨ p ∈ l := by
  intro fuel
  induction fuel with
  | zero => intro i target acc out _ h; cases h
  | succ fuel ih =>
    intro i target acc out hi h p hp
    rw [walkBack] at h
    split at h
    · cases h
      exact Or.inl hp
    · rcases ih _ _ _ _ (Nat.mod_lt _ hl) h p hp with hacc | hmem
      · rcases List.mem_append.mp hacc with h1 | h1
        · exact Or.inl h1
        · right
          rw [List.mem_singleton.mp h1]
          exact getD_mem hi _
      · exact Or.inr hmem

lemma walkFwd_mem {l : List Pt} (hl : 0 < l.length) :
    ∀ (fuel i target : ℕ) (acc out : List Pt), i < l.length →
      walkFwd fuel l i target acc = some out →
      ∀ p ∈ out, p ∈ acc ∨ p ∈ l := by
  intro fuel
  induction fuel with
  | zero => intro i target acc out _ h; cases h
  | succ fuel ih =>
    intro i target acc out hi h p hp
    rw [walkFwd] at h
    split at h
    · cases h
      exact Or.inl hp
    · rcases ih _ _ _ _ (Nat.mod_lt _ hl) h p hp with hacc | hmem
      · rcases List.mem_append.mp hacc with h1 | h1
        · exact Or.inl h1
        · right
          rw [List.mem_singleton.mp h1]
          exact getD_mem hi _
      · exact Or.inr hmem

lemma mergeStep_subset {he0 hd0 out : List Pt}
    (h : mergeStep he0 hd0 = some out) :
    ∀ p ∈ out, p ∈ he0 ∨ p ∈ hd0 := by
  unfold mergeStep at h
  simp only at h
  split at h
  case _ ti ts hti hts =>
    have hti1 : ti.1 ∈ ordenaAH he0 := (getTangenteInf_mem (by rw [hti])).1
    have hti2 : ti.2 ∈ ordenaAH hd0 := (getTangenteInf_mem (by rw [hti])).2
    have hts1 : ts.1 ∈ ordenaAH he0 := (getTangenteSup_mem (by rw [hts])).1
    have hts2 : ts.2 ∈ ordenaAH hd0 := (getTangenteSup_mem (by rw [hts])).2
    have hhe : 0 < (ordenaAH he0).length := List.length_pos.mpr (List.ne_nil_of_mem hti1)
    have hhd : 0 < (ordenaAH hd0).length := List.length_pos.mpr (List.ne_nil_of_mem hti2)
    split at h
    · cases h
    case _ hullL hWB =>
      intro p hp
      have hstep := walkFwd_mem hhd _ _ _ _ _ (List.indexOf_lt_length.mpr hti2) h p hp
      rcases hstep with hacc | hmem
      · rcases List.mem_append.mp hacc with h1 | h1
        · have := walkBack_mem hhe _ _ _ _ _ (List.indexOf_lt_length.mpr hti1) hWB p h1
          rcases this with h2 | h2
          · left
            rw [List.mem_singleton.mp h2] at *
            exact mem_ordenaAH.mp (getD_mem (List.indexOf_lt_length.mpr hts1) _)
          · exact Or.inl (mem_ordenaAH.mp h2)
        · right
          rw [List.mem_singleton.mp h1]
          exact mem_ordenaAH.mp (getD_mem (List.indexOf_lt_length.mpr hts2) _)
      · exact Or.inr (mem_ordenaAH.mp hmem)
  · cases h

/-- C2: every vertex of a ring returned by `merge_hull` is an element of the
input point list (the computed hull is a subset of the input points); stated
for every fuel bound under which the JS loops finish. -/
theorem c2_hull_subset :
    ∀ (fuel : ℕ) (points h : List Pt), mergeHull fuel points = some h →
      ∀ p ∈ h, p ∈ points := by
  intro fuel
  induction fuel with
  | zero => intro points h hh; cases hh
  | succ fuel ih =>
    intro points h hh
    rw [mergeHull] at hh
    split at hh
    · cases hh
      exact fun p hp => hp
    · simp only at hh
      split at hh
      case _ he hd hhe hhd =>
        intro p hp
        have hsort : ∀ q : Pt,
            q ∈ points.insertionSort (fun a b => a.x ≤ b.x) → q ∈ points :=
          fun q hq => (List.mem_insertionSort _).mp hq
        rcases mergeStep_subset hh p hp with hl | hr
        · exact hsort p (List.take_subset _ _ (ih _ _ hhe p hl))
        · exact hsort p (List.drop_subset _ _ (ih _ _ hhd p hr))
      · cases hh

/-- Witness for C2 at the 5-point scenario (square plus interior point): the
computed hull's vertices all come from the input. -/
theorem c2_hull_subset_witness :
    mergeHull 8 [⟨0, 0⟩, ⟨4, 0⟩, ⟨4, 4⟩, ⟨0, 4⟩, ⟨2, 2⟩] =
      some [⟨0, 4⟩, ⟨0, 0⟩, ⟨4, 4⟩, ⟨4, 0⟩] ∧
    ∀ p ∈ [Pt.mk 0 4, ⟨0, 0⟩, ⟨4, 4⟩, ⟨4, 0⟩],
      p ∈ [Pt.mk 0 0, ⟨4, 0⟩, ⟨4, 4⟩, ⟨0, 4⟩, ⟨2, 2⟩] := by
  constructor
  · decide
  · exact c2_hull_subset 8 _ _ (by decide)

/-! ## C7: pick returns the most recently created hit -/

/-- C7: for two primitives of the same kind whose hit regions both contain
the query point, `pick` returns the more recently created one: candidates
are scanned from most-recently-created to least-recently-created and the
first hit is returned.  Stated for `Point.pick` and `Line.pick`: with `a`
created before `b`, both hit, and nothing created after `b` hitting, the
result is `b` (the deciding hypothesis is `hit b`; `a`'s hit makes the
overlap explicit). -/
theorem c7_pick_topmost (xm ym : ℚ) :
    (∀ (l1 l2 l3 : List Pt) (a b : Pt), pointHit a xm ym = true →
      pointHit b xm ym = true → (∀ c ∈ l3, pointHit c xm ym = false) →
      pointPick (l1 ++ a :: l2 ++ b :: l3) xm ym = some b) ∧
    (∀ (l1 l2 l3 : List Seg) (a b : Seg), lineHit a xm ym = true →
      lineHit b xm ym = true → (∀ c ∈ l3, lineHit c xm ym = false) →
      linePick (l1 ++ a :: l2 ++ b :: l3) xm ym = some b) := by
  constructor
  · intro l1 l2 l3 a b _ hb h3
    exact find?_reverse_last (fun p => pointHit p xm ym) l1 l2 l3 a b hb h3
  · intro l1 l2 l3 a b _ hb h3
    exact find?_reverse_last (fun l => lineHit l xm ym) l1 l2 l3 a b hb h3

/-- Witness for C7: two overlapping points and two overlapping segments;
the more recently created primitive wins. -/
theorem c7_pick_topmost_witness :
    pointPick [⟨0, 0⟩, ⟨3, 3⟩] 2 2 = some ⟨3, 3⟩ ∧
    linePick [⟨0, 0, 10, 0⟩, ⟨0, 1, 10, 1⟩] 5 0 = some ⟨0, 1, 10, 1⟩ := by
  constructor
  · exact (c7_pick_topmost 2 2).1 [] [] [] ⟨0, 0⟩ ⟨3, 3⟩ (by decide) (by decide)
      (by intro c hc; cases hc)
  · exact (c7_pick_topmost 5 0).2 [] [] [] ⟨0, 0, 10, 0⟩ ⟨0, 1, 10, 1⟩ (by decide)
      (by decide) (by intro c hc; cases hc)

/-! ## C3: rotate round trip -/

lemma rotateWith_rotateWith (l : RotLine) (g g2 c1 s1 c2 s2 : ℚ) :
    rotateWith (rotateWith l g c1 s1) g2 c2 s2 = rotateWith l g2 c2 s2 := rfl

/-- C3 counterexample: take the fresh segment with reference (and current)
endpoints `(0,0)-(10,0)`.  `Math.cos(±π/2).toFixed(3)` is `0.000` and
`Math.sin(±π/2).toFixed(3)` is `±1.000`, so `rotate(90)` uses `(c,s) = (0,1)`
and `rotate(-90)` uses `(0,-1)`.  After `rotate(90)` then `rotate(-90)` the
current first endpoint is `(5,5)` — a distance `5√2` from the original
`(0,0)`, not within any reasonable epsilon: each `rotate` recomputes from the
unchanged reference endpoints, so the pair of calls does not cancel. -/
theorem c3_counterexample :
    toFixed3 (Real.cos ((90 : ℝ) * Real.pi / 180)) = 0 ∧
    toFixed3 (Real.sin ((90 : ℝ) * Real.pi / 180)) = 1 ∧
    toFixed3 (Real.cos ((-90 : ℝ) * Real.pi / 180)) = 0 ∧
    toFixed3 (Real.sin ((-90 : ℝ) * Real.pi / 180)) = -1 ∧
    (rotateWith (rotateWith
        ⟨0, 0, 10, 0, 0, 0, 10, 0, 0⟩ 90 0 1) (-90) 0 (-1)).x1 = 5 ∧
    (rotateWith (rotateWith
        ⟨0, 0, 10, 0, 0, 0, 10, 0, 0⟩ 90 0 1) (-90) 0 (-1)).y1 = 5 ∧
    (⟨0, 0, 10, 0, 0, 0, 10, 0, 0⟩ : RotLine).x1 = 0 ∧
    (⟨0, 0, 10, 0, 0, 0, 10, 0, 0⟩ : RotLine).y1 = 0 := by
  have h90 : (90 : ℝ) * Real.pi / 180 = Real.pi / 2 := by ring
  have hm90 : (-90 : ℝ) * Real.pi / 180 = -(Real.pi / 2) := by ring
  refine ⟨?_, ?_, ?_, ?_, by decide, by decide, by decide, by decide⟩
  · rw [h90, Real.cos_pi_div_two]
    norm_num [toFixed3]
  · rw [h90, Real.sin_pi_div_two]
    norm_num [toFixed3]
  · rw [hm90, Real.cos_neg, Real.cos_pi_div_two]
    norm_num [toFixed3]
  · rw [hm90, Real.sin_neg, Real.sin_pi_div_two]
    norm_num [toFixed3]

/-- C3 (amended): `rotate` always recomputes the current endpoints from the
reference endpoints, so `rotate(θ)` followed by any second `rotate` equals
the second `rotate` alone — in particular `rotate(θ)` then `rotate(−θ)`
yields the coordinates of a single `rotate(−θ)`, not the originals.  The
restoring round trip is `rotate(θ)` then `rotate(0)` (whose rounded cosine
and sine are exactly `1` and `0`), which recovers the original current
coordinates of a segment whose current endpoints equal its reference
endpoints. -/
theorem c3_rotate_reference_semantics :
    (∀ (l : RotLine) (g g2 c1 s1 c2 s2 : ℚ),
      rotateWith (rotateWith l g c1 s1) g2 c2 s2 = rotateWith l g2 c2 s2) ∧
    toFixed3 (Real.cos ((0 : ℝ) * Real.pi / 180)) = 1 ∧
    toFixed3 (Real.sin ((0 : ℝ) * Real.pi / 180)) = 0 ∧
    (∀ (l : RotLine) (g c1 s1 : ℚ), l.x1 = l.x1o → l.y1 = l.y1o →
      l.x2 = l.x2o → l.y2 = l.y2o →
      (rotateWith (rotateWith l g c1 s1) 0 1 0).x1 = l.x1 ∧
      (rotateWith (rotateWith l g c1 s1) 0 1 0).y1 = l.y1 ∧
      (rotateWith (rotateWith l g c1 s1) 0 1 0).x2 = l.x2 ∧
      (rotateWith (rotateWith l g c1 s1) 0 1 0).y2 = l.y2) := by
  refine ⟨rotateWith_rotateWith, ?_, ?_, ?_⟩
  · rw [show (0 : ℝ) * Real.pi / 180 = 0 by ring, Real.cos_zero]
    norm_num [toFixed3]
  · rw [show (0 : ℝ) * Real.pi / 180 = 0 by ring, Real.sin_zero]
    norm_num [toFixed3]
  · intro l g c1 s1 h1 h2 h3 h4
    refine ⟨?_, ?_, ?_, ?_⟩ <;>
      simp only [rotateWith_rotateWith, rotateWith, h1, h2, h3, h4] <;> ring

/-- Witness for C3 (amended) at the concrete segment `(0,0)-(10,0)` and
`θ = 90`. -/
theorem c3_rotate_reference_semantics_witness :
    rotateWith (rotateWith ⟨0, 0, 10, 0, 0, 0, 10, 0, 0⟩ 90 0 1) (-90) 0 (-1) =
      rotateWith ⟨0, 0, 10, 0, 0, 0, 10, 0, 0⟩ (-90) 0 (-1) ∧
    (rotateWith (rotateWith ⟨0, 0, 10, 0, 0, 0, 10, 0, 0⟩ 90 0 1) 0 1 0).x1 =
      (⟨0, 0, 10, 0, 0, 0, 10, 0, 0⟩ : RotLine).x1 ∧
    (rotateWith (rotateWith ⟨0, 0, 10, 0, 0, 0, 10, 0, 0⟩ 90 0 1) 0 1 0).y1 =
      (⟨0, 0, 10, 0, 0, 0, 10, 0, 0⟩ : RotLine).y1 :=
  ⟨c3_rotate_reference_semantics.1 ⟨0, 0, 10, 0, 0, 0, 10, 0, 0⟩ 90 (-90) 0 1 0 (-1),
   (c3_rotate_reference_semantics.2.2.2 ⟨0, 0, 10, 0, 0, 0, 10, 0, 0⟩ 90 0 1
      (by decide) (by decide) (by decide) (by decide)).1,
   (c3_rotate_reference_semantics.2.2.2 ⟨0, 0, 10, 0, 0, 0, 10, 0, 0⟩ 90 0 1
      (by decide) (by decide) (by decide) (by decide)).2.1⟩

/-! ## C5: re-sort and re-triangulation after mutations -/

lemma sort_vertices_eq_self {p : PolygonSt}
    (h1 : p.xcm = centroidX p.vertices) (h2 : p.ycm = centroidY p.vertices)
    (h3 : p.ordered_vertices = ringOf p.vertices) : sort_vertices p = p := by
  cases p with
  | mk v o xm ym t ot xc yc r e =>
    dsimp [sort_vertices] at *
    rw [← h1, ← h2, ← h3]

lemma triangulate_fields {p q : PolygonSt} (h : triangulate p = some q) :
    q.vertices = p.vertices ∧ q.ordered_vertices = p.ordered_vertices ∧
    q.xcm = p.xcm ∧ q.ycm = p.ycm := by
  unfold triangulate at h
  split at h
  · cases h
    exact ⟨rfl, rfl, rfl, rfl⟩
  · split at h
    · cases h
    · cases h
      exact ⟨rfl, rfl, rfl, rfl⟩

lemma update_center_idem (z : PolygonSt) :
    update_center (update_center z) = update_center z := rfl

lemma triangulate_eq_self {q : PolygonSt}
    (hord : ¬ q.ordered_vertices.length < 3)
    (htl : triLoop q.ordered_vertices.length q.xcm q.ycm q.ordered_vertices [] =
      some q.triangles)
    (horig : q.orig_triangles = q.triangles)
    (huc : update_center q = q) :
    triangulate q = some q := by
  unfold triangulate
  rw [if_neg hord]
  simp only [htl]
  have hrec : { q with triangles := q.triangles, orig_triangles := q.triangles } = q := by
    cases q with
    | mk v o xm ym t ot xc yc r e =>
      dsimp at horig ⊢
      rw [horig]
  rw [hrec, huc]

/-- After `sort_vertices(); triangulate()` the polygon state is a fixed point
of both operations: re-running them is a no-op. -/
lemma retriangulate_fixpoint {p0 p' : PolygonSt}
    (hp : triangulate (sort_vertices p0) = some p') :
    sort_vertices p' = p' ∧ triangulate p' = some p' := by
  obtain ⟨hv, ho, hx, hy⟩ := triangulate_fields hp
  have hsv : sort_vertices p' = p' :=
    sort_vertices_eq_self (by rw [hx, hv]; rfl) (by rw [hy, hv]; rfl)
      (by rw [ho, hv]; rfl)
  refine ⟨hsv, ?_⟩
  unfold triangulate at hp
  split at hp
  case isTrue hlt =>
    obtain rfl := Option.some.inj hp
    unfold triangulate
    rw [if_pos hlt]
  case isFalse hge =>
    split at hp
    case _ => cases hp
    case _ tris heq =>
      obtain rfl := Option.some.inj hp
      exact triangulate_eq_self hge heq rfl (update_center_idem _)

/-- C5 (amended): `add_vertex`, `update_last_vertex` and the `main.js`
revision of `translate` re-run the angular sort and the triangulation before
returning — the state they produce is a fixed point of
`sort_vertices`/`triangulate`.  The part_002 revision of `translate` does
not: it leaves the raw vertex list, the sorted ring and the ring centroid
untouched (it only shifts reference triangle corners and re-applies the
rotation/scale transform). -/
theorem c5_retriangulation :
    (∀ (p : PolygonSt) (x y : ℚ) (p' : PolygonSt), add_vertex p x y = some p' →
      sort_vertices p' = p' ∧ triangulate p' = some p') ∧
    (∀ (p : PolygonSt) (x y : ℚ) (p' : PolygonSt), update_last_vertex p x y = some p' →
      sort_vertices p' = p' ∧ triangulate p' = some p') ∧
    (∀ (p : PolygonSt) (dx dy : ℚ) (p' : PolygonSt), translateMain p dx dy = some p' →
      sort_vertices p' = p' ∧ triangulate p' = some p') ∧
    (∀ (c s : ℚ) (p : PolygonSt) (dx dy : ℚ),
      (translateP2 c s p dx dy).vertices = p.vertices ∧
      (translateP2 c s p dx dy).ordered_vertices = p.ordered_vertices ∧
      (translateP2 c s p dx dy).xcm = p.xcm ∧
      (translateP2 c s p dx dy).ycm = p.ycm) :=
  ⟨fun _ _ _ _ hp => retriangulate_fixpoint hp,
   fun _ _ _ _ hp => retriangulate_fixpoint hp,
   fun _ _ _ _ hp => retriangulate_fixpoint hp,
   fun _ _ _ _ _ => ⟨rfl, rfl, rfl, rfl⟩⟩

/-- Witness for C5 (amended) at a concrete `add_vertex` call. -/
theorem c5_retriangulation_witness :
    sort_vertices { PolygonSt.init with
      vertices := [⟨0, 0⟩], ordered_vertices := [⟨0, 0⟩] } =
      { PolygonSt.init with vertices := [⟨0, 0⟩], ordered_vertices := [⟨0, 0⟩] } ∧
    triangulate { PolygonSt.init with
      vertices := [⟨0, 0⟩], ordered_vertices := [⟨0, 0⟩] } =
      some { PolygonSt.init with vertices := [⟨0, 0⟩], ordered_vertices := [⟨0, 0⟩] } :=
  c5_retriangulation.1 PolygonSt.init 0 0
    { PolygonSt.init with vertices := [⟨0, 0⟩], ordered_vertices := [⟨0, 0⟩] }
    (by decide)

/-- C5 counterexample: build the triangle `(0,0), (4,0), (0,4)` by three
`add_vertex` calls, then run the part_002 `translate` by `(10, 10)` (with
`(c, s) = (cos 0, sin 0) = (1, 0)` for the unrotated polygon).  The current
triangles move to the translated coordinates, but re-running
`sort_vertices(); triangulate()` on the resulting state yields DIFFERENT
triangles (the stale raw vertices): the translate did not re-sort nor
re-triangulate. -/
theorem c5_counterexample :
    ((add_vertex PolygonSt.init 0 0).bind (fun p => add_vertex p 4 0)).bind
        (fun p => add_vertex p 0 4) = some
      { vertices := [⟨0, 0⟩, ⟨4, 0⟩, ⟨0, 4⟩],
        ordered_vertices := [⟨0, 0⟩, ⟨4, 0⟩, ⟨0, 4⟩],
        xcm := 4/3, ycm := 4/3,
        triangles := [(⟨0, 0⟩, ⟨4, 0⟩, ⟨0, 4⟩)],
        orig_triangles := [(⟨0, 0⟩, ⟨4, 0⟩, ⟨0, 4⟩)],
        xc := 4/3, yc := 4/3, rotation := 0, escala := 1 } ∧
    ((1 : ℚ) : ℝ) = Real.cos ((((0 : ℚ) : ℝ)) * Real.pi / 180) ∧
    ((0 : ℚ) : ℝ) = Real.sin ((((0 : ℚ) : ℝ)) * Real.pi / 180) ∧
    translateP2 1 0
      { vertices := [⟨0, 0⟩, ⟨4, 0⟩, ⟨0, 4⟩],
        ordered_vertices := [⟨0, 0⟩, ⟨4, 0⟩, ⟨0, 4⟩],
        xcm := 4/3, ycm := 4/3,
        triangles := [(⟨0, 0⟩, ⟨4, 0⟩, ⟨0, 4⟩)],
        orig_triangles := [(⟨0, 0⟩, ⟨4, 0⟩, ⟨0, 4⟩)],
        xc := 4/3, yc := 4/3, rotation := 0, escala := 1 } 10 10 =
      { vertices := [⟨0, 0⟩, ⟨4, 0⟩, ⟨0, 4⟩],
        ordered_vertices := [⟨0, 0⟩, ⟨4, 0⟩, ⟨0, 4⟩],
        xcm := 4/3, ycm := 4/3,
        triangles := [(⟨10, 10⟩, ⟨14, 10⟩, ⟨10, 14⟩)],
        orig_triangles := [(⟨10, 10⟩, ⟨14, 10⟩, ⟨10, 14⟩)],
        xc := 34/3, yc := 34/3, rotation := 0, escala := 1 } ∧
    (triangulate (sort_vertices
      { vertices := [⟨0, 0⟩, ⟨4, 0⟩, ⟨0, 4⟩],
        ordered_vertices := [⟨0, 0⟩, ⟨4, 0⟩, ⟨0, 4⟩],
        xcm := 4/3, ycm := 4/3,
        triangles := [(⟨10, 10⟩, ⟨14, 10⟩, ⟨10, 14⟩)],
        orig_triangles := [(⟨10, 10⟩, ⟨14, 10⟩, ⟨10, 14⟩)],
        xc := 34/3, yc := 34/3, rotation := 0, escala := 1 })).map
      (fun r => decide (r.triangles =
        [((⟨10, 10⟩ : Pt), (⟨14, 10⟩ : Pt), (⟨10, 14⟩ : Pt))])) = some false := by
  refine ⟨by decide, ?_, ?_, by decide, by decide⟩
  · rw [show (((0 : ℚ) : ℝ)) * Real.pi / 180 = 0 by push_cast; ring, Real.cos_zero]
    norm_num
  · rw [show (((0 : ℚ) : ℝ)) * Real.pi / 180 = 0 by push_cast; ring, Real.sin_zero]
    norm_num

/-! ### Termination of the `Line.pick` boundary-projection loop (C8, C10)

The loop moves `p1` onto the tolerance-rectangle boundaries `x = xm ∓ 6`,
`y = ym ∓ 6`.  Writing `q` for the slope, every state after the first move is
one of the four closed-form points obtained by intersecting the (invariant)
carrier line `y - y2 = q (x - x2)` with a boundary; sign analysis on `q` and
`q⁻¹` rules out every 2-cycle and 4-cycle among those points, so the loop
resolves within a handful of iterations.  Vertical (`±Infinity` slope),
horizontal (`0` slope) and degenerate (`NaN` slope) segments resolve within
two iterations. -/

lemma isZero_of_bits {c : Code} (h1 : c.left = false) (h2 : c.right = false)
    (h3 : c.down = false) (h4 : c.up = false) : c.isZero = true := by
  simp [Code.isZero, h1, h2, h3, h4]

lemma isZero_false_left {c : Code} (h : c.left = true) : c.isZero = false := by
  simp [Code.isZero, h]

lemma isZero_false_right {c : Code} (h : c.right = true) : c.isZero = false := by
  simp [Code.isZero, h]

lemma isZero_false_down {c : Code} (h : c.down = true) : c.isZero = false := by
  simp [Code.isZero, h]

lemma isZero_false_up {c : Code} (h : c.up = true) : c.isZero = false := by
  simp [Code.isZero, h]

lemma shares_of_left {c d : Code} (h1 : c.left = true) (h2 : d.left = true) :
    c.shares d = true := by
  simp [Code.shares, h1, h2]

lemma shares_of_right {c d : Code} (h1 : c.right = true) (h2 : d.right = true) :
    c.shares d = true := by
  simp [Code.shares, h1, h2]

lemma shares_of_down {c d : Code} (h1 : c.down = true) (h2 : d.down = true) :
    c.shares d = true := by
  simp [Code.shares, h1, h2]

lemma shares_of_up {c d : Code} (h1 : c.up = true) (h2 : d.up = true) :
    c.shares d = true := by
  simp [Code.shares, h1, h2]

lemma shares_self {c : Code} (h : c.isZero = false) : c.shares c = true := by
  rcases c with ⟨l, r, d, u⟩
  revert h
  cases l <;> cases r <;> cases d <;> cases u <;> decide

lemma shares_false_elim {c d : Code} (h : c.shares d = false) :
    (c.left = true → d.left = false) ∧ (c.right = true → d.right = false) ∧
    (c.down = true → d.down = false) ∧ (c.up = true → d.up = false) := by
  rcases c with ⟨cl, cr, cd, cu⟩
  rcases d with ⟨dl, dr, dd, du⟩
  revert h
  cases cl <;> cases cr <;> cases cd <;> cases cu <;>
    cases dl <;> cases dr <;> cases dd <;> cases du <;> decide

lemma clipLoop_done {xm ym x y : ℚ} {m : JsNum} {c2 : Code} {r : ClipRes}
    (fuel : ℕ) (h : clipStep xm ym m c2 x y = .done r) :
    clipLoop (fuel + 1) xm ym m c2 x y = some r := by
  simp only [clipLoop, h]

lemma clipLoop_next {xm ym x y x' y' : ℚ} {m : JsNum} {c2 : Code}
    (fuel : ℕ) (h : clipStep xm ym m c2 x y = .next x' y') :
    clipLoop (fuel + 1) xm ym m c2 x y = clipLoop fuel xm ym m c2 x' y' := by
  simp only [clipLoop, h]

lemma clipStep_hit {xm ym x y : ℚ} {m : JsNum} {c2 : Code}
    (h : (encode x y xm ym).isZero = true ∨ c2.isZero = true) :
    clipStep xm ym m c2 x y = .done .hit := by
  unfold clipStep
  rcases h with h | h <;> simp [h]

lemma clipStep_reject {xm ym x y : ℚ} {m : JsNum} {c2 : Code}
    (h1 : (encode x y xm ym).isZero = false) (h2 : c2.isZero = false)
    (h3 : (encode x y xm ym).shares c2 = true) :
    clipStep xm ym m c2 x y = .done .reject := by
  unfold clipStep
  simp [h1, h2, h3]

lemma clipStep_left {xm ym x y : ℚ} {c2 : Code} (q : ℚ)
    (h1 : (encode x y xm ym).isZero = false) (h2 : c2.isZero = false)
    (h3 : (encode x y xm ym).shares c2 = false)
    (hL : (encode x y xm ym).left = true) :
    clipStep xm ym (.fin q) c2 x y = .next (xm - 6) (y + q * (xm - 6 - x)) := by
  unfold clipStep
  simp [h1, h2, h3, hL, jsMulAdd, tol]

lemma clipStep_right {xm ym x y : ℚ} {c2 : Code} (q : ℚ)
    (h1 : (encode x y xm ym).isZero = false) (h2 : c2.isZero = false)
    (h3 : (encode x y xm ym).shares c2 = false)
    (hL : (encode x y xm ym).left = false)
    (hR : (encode x y xm ym).right = true) :
    clipStep xm ym (.fin q) c2 x y = .next (xm + 6) (y + q * (xm + 6 - x)) := by
  unfold clipStep
  simp [h1, h2, h3, hL, hR, jsMulAdd, tol]

lemma clipStep_down {xm ym x y s : ℚ} {m : JsNum} {c2 : Code}
    (hm : jsInv m = .fin s)
    (h1 : (encode x y xm ym).isZero = false) (h2 : c2.isZero = false)
    (h3 : (encode x y xm ym).shares c2 = false)
    (hL : (encode x y xm ym).left = false)
    (hR : (encode x y xm ym).right = false)
    (hD : (encode x y xm ym).down = true) :
    clipStep xm ym m c2 x y = .next (x + s * (ym - 6 - y)) (ym - 6) := by
  unfold clipStep
  simp [h1, h2, h3, hL, hR, hD, hm, jsMulAdd, tol]

lemma clipStep_up {xm ym x y s : ℚ} {m : JsNum} {c2 : Code}
    (hm : jsInv m = .fin s)
    (h1 : (encode x y xm ym).isZero = false) (h2 : c2.isZero = false)
    (h3 : (encode x y xm ym).shares c2 = false)
    (hL : (encode x y xm ym).left = false)
    (hR : (encode x y xm ym).right = false)
    (hD : (encode x y xm ym).down = false)
    (hU : (encode x y xm ym).up = true) :
    clipStep xm ym m c2 x y = .next (x + s * (ym + 6 - y)) (ym + 6) := by
  unfold clipStep
  simp [h1, h2, h3, hL, hR, hD, hU, hm, jsMulAdd, tol]

lemma clipInvCD (q y2 x2 w : ℚ) (hq : q ≠ 0) :
    w - y2 = q * (x2 + q⁻¹ * (w - y2) - x2) := by
  rw [add_sub_cancel_left, ← mul_assoc, mul_inv_cancel₀ hq, one_mul]

lemma clipKillAC (q x2 y2 xl yb : ℚ) (hq : q ≠ 0)
    (h1 : y2 + q * (xl - x2) < yb) (h2 : ¬ y2 < yb)
    (h3 : x2 + q⁻¹ * (yb - y2) < xl) (h4 : ¬ x2 < xl) : False := by
  have hu : xl - x2 ≤ 0 := by linarith
  have hv : yb - y2 ≤ 0 := by linarith
  have h1' : q * (xl - x2) < yb - y2 := by linarith
  have h3' : q⁻¹ * (yb - y2) < xl - x2 := by linarith
  have hqpos : 0 < q := by
    rcases lt_or_gt_of_ne hq with hneg | hpos
    · exfalso
      have hge := mul_nonneg (neg_nonneg.mpr (le_of_lt hneg)) (neg_nonneg.mpr hu)
      rw [neg_mul_neg] at hge
      linarith
    · exact hpos
  have hmul := mul_lt_mul_of_pos_left h3' hqpos
  rw [← mul_assoc, mul_inv_cancel₀ hq, one_mul] at hmul
  linarith

lemma clipKillAD (q x2 y2 xl yt : ℚ) (hq : q ≠ 0)
    (h1 : yt < y2 + q * (xl - x2)) (h2 : ¬ yt < y2)
    (h3 : x2 + q⁻¹ * (yt - y2) < xl) (h4 : ¬ x2 < xl) : False := by
  have hu : xl - x2 ≤ 0 := by linarith
  have hw : 0 ≤ yt - y2 := by linarith
  have h1' : yt - y2 < q * (xl - x2) := by linarith
  have h3' : q⁻¹ * (yt - y2) < xl - x2 := by linarith
  have hqneg : q < 0 := by
    rcases lt_or_gt_of_ne hq with hneg | hpos
    · exact hneg
    · exact absurd (mul_nonpos_of_nonneg_of_nonpos (le_of_lt hpos) hu) (by linarith)
  have hmul := mul_lt_mul_of_neg_left h3' hqneg
  rw [← mul_assoc, mul_inv_cancel₀ hq, one_mul] at hmul
  linarith

lemma clipKillBC (q x2 y2 xr yb : ℚ) (hq : q ≠ 0)
    (h1 : y2 + q * (xr - x2) < yb) (h2 : ¬ y2 < yb)
    (h3 : xr < x2 + q⁻¹ * (yb - y2)) (h4 : ¬ xr < x2) : False := by
  have hu : 0 ≤ xr - x2 := by linarith
  have hv : yb - y2 ≤ 0 := by linarith
  have h1' : q * (xr - x2) < yb - y2 := by linarith
  have h3' : xr - x2 < q⁻¹ * (yb - y2) := by linarith
  have hqneg : q < 0 := by
    rcases lt_or_gt_of_ne hq with hneg | hpos
    · exact hneg
    · exact absurd (mul_nonneg (le_of_lt hpos) hu) (by linarith)
  have hmul := mul_lt_mul_of_neg_left h3' hqneg
  rw [← mul_assoc, mul_inv_cancel₀ hq, one_mul] at hmul
  linarith

lemma clipKillBD (q x2 y2 xr yt : ℚ) (hq : q ≠ 0)
    (h1 : yt < y2 + q * (xr - x2)) (h2 : ¬ yt < y2)
    (h3 : xr < x2 + q⁻¹ * (yt - y2)) (h4 : ¬ xr < x2) : False := by
  have hu : 0 ≤ xr - x2 := by linarith
  have hw : 0 ≤ yt - y2 := by linarith
  have h1' : yt - y2 < q * (xr - x2) := by linarith
  have h3' : xr - x2 < q⁻¹ * (yt - y2) := by linarith
  have hqpos : 0 < q := by
    rcases lt_or_gt_of_ne hq with hneg | hpos
    · exact absurd (mul_nonpos_of_nonpos_of_nonneg (le_of_lt hneg) hu) (by linarith)
    · exact hpos
  have hmul := mul_lt_mul_of_pos_left h3' hqpos
  rw [← mul_assoc, mul_inv_cancel₀ hq, one_mul] at hmul
  linarith

lemma clipKillACBD (q x2 y2 xm ym : ℚ)
    (h1 : y2 + q * (xm - 6 - x2) < ym - 6)
    (h2 : xm + 6 < x2 + q⁻¹ * (ym - 6 - y2))
    (h3 : ym + 6 < y2 + q * (xm + 6 - x2))
    (h4 : x2 + q⁻¹ * (ym + 6 - y2) < xm - 6) : False := by
  have e1 : q * (xm + 6 - x2) - q * (xm - 6 - x2) = 12 * q := by ring
  have hq1 : 0 < q := by linarith
  have e2 : q⁻¹ * (ym - 6 - y2) - q⁻¹ * (ym + 6 - y2) = -12 * q⁻¹ := by ring
  have hq2 : q⁻¹ < 0 := by linarith
  have := inv_pos.mpr hq1
  linarith

lemma clipKillADBC (q x2 y2 xm ym : ℚ)
    (h1 : ym + 6 < y2 + q * (xm - 6 - x2))
    (h2 : xm + 6 < x2 + q⁻¹ * (ym + 6 - y2))
    (h3 : y2 + q * (xm + 6 - x2) < ym - 6)
    (h4 : x2 + q⁻¹ * (ym - 6 - y2) < xm - 6) : False := by
  have e1 : q * (xm - 6 - x2) - q * (xm + 6 - x2) = -12 * q := by ring
  have hq1 : q < 0 := by linarith
  have e2 : q⁻¹ * (ym + 6 - y2) - q⁻¹ * (ym - 6 - y2) = 12 * q⁻¹ := by ring
  have hq2 : 0 < q⁻¹ := by linarith
  have := inv_lt_zero.mpr hq1
  linarith

/-- Complete characterization of one loop iteration for a finite nonzero
slope `q`, at a moving point on the carrier line `y - y2 = q (x - x2)`:
either the iteration terminates (hit/reject), or it clips to one of the four
closed-form boundary points, and then the corresponding outcode bit of `p2`
is clear (otherwise the trivial reject would have fired). -/
lemma clipStep_main (q x2 y2 xm ym x y : ℚ) (hq : q ≠ 0)
    (hInv : y - y2 = q * (x - x2)) :
    clipStep xm ym (.fin q) (encode x2 y2 xm ym) x y = .done .hit ∨
    clipStep xm ym (.fin q) (encode x2 y2 xm ym) x y = .done .reject ∨
    (x < xm - 6 ∧ ¬ x2 < xm - 6 ∧
      clipStep xm ym (.fin q) (encode x2 y2 xm ym) x y =
        .next (xm - 6) (y2 + q * (xm - 6 - x2))) ∨
    (xm + 6 < x ∧ ¬ xm + 6 < x2 ∧
      clipStep xm ym (.fin q) (encode x2 y2 xm ym) x y =
        .next (xm + 6) (y2 + q * (xm + 6 - x2))) ∨
    (y < ym - 6 ∧ ¬ y2 < ym - 6 ∧
      clipStep xm ym (.fin q) (encode x2 y2 xm ym) x y =
        .next (x2 + q⁻¹ * (ym - 6 - y2)) (ym - 6)) ∨
    (ym + 6 < y ∧ ¬ ym + 6 < y2 ∧
      clipStep xm ym (.fin q) (encode x2 y2 xm ym) x y =
        .next (x2 + q⁻¹ * (ym + 6 - y2)) (ym + 6)) := by
  by_cases hz1 : (encode x y xm ym).isZero = true
  · exact Or.inl (clipStep_hit (Or.inl hz1))
  by_cases hz2 : (encode x2 y2 xm ym).isZero = true
  · exact Or.inl (clipStep_hit (Or.inr hz2))
  have hz1' : (encode x y xm ym).isZero = false := by simpa using hz1
  have hz2' : (encode x2 y2 xm ym).isZero = false := by simpa using hz2
  by_cases hsh : (encode x y xm ym).shares (encode x2 y2 xm ym) = true
  · exact Or.inr (Or.inl (clipStep_reject hz1' hz2' hsh))
  have hsh' : (encode x y xm ym).shares (encode x2 y2 xm ym) = false := by
    simpa using hsh
  have hcons := shares_false_elim hsh'
  by_cases hxl : x < xm - 6
  · refine Or.inr (Or.inr (Or.inl ⟨hxl, ?_, ?_⟩))
    · intro hc
      have hc2 : (encode x2 y2 xm ym).left = true := decide_eq_true hc
      have := hcons.1 (decide_eq_true hxl)
      rw [hc2] at this
      exact Bool.noConfusion this
    · rw [clipStep_left q hz1' hz2' hsh' (decide_eq_true hxl),
        show y + q * (xm - 6 - x) = y2 + q * (xm - 6 - x2) from by linear_combination hInv]
  by_cases hxr : xm + 6 < x
  · refine Or.inr (Or.inr (Or.inr (Or.inl ⟨hxr, ?_, ?_⟩)))
    · intro hc
      have hc2 : (encode x2 y2 xm ym).right = true := decide_eq_true hc
      have := hcons.2.1 (decide_eq_true hxr)
      rw [hc2] at this
      exact Bool.noConfusion this
    · rw [clipStep_right q hz1' hz2' hsh' (decide_eq_false hxl) (decide_eq_true hxr),
        show y + q * (xm + 6 - x) = y2 + q * (xm + 6 - x2) from by linear_combination hInv]
  by_cases hyd : y < ym - 6
  · refine Or.inr (Or.inr (Or.inr (Or.inr (Or.inl ⟨hyd, ?_, ?_⟩))))
    · intro hc
      have hc2 : (encode x2 y2 xm ym).down = true := decide_eq_true hc
      have := hcons.2.2.1 (decide_eq_true hyd)
      rw [hc2] at this
      exact Bool.noConfusion this
    · have hqi : q⁻¹ * (y - y2) = x - x2 := by
        rw [hInv, inv_mul_cancel_left₀ hq]
      rw [clipStep_down (show jsInv (.fin q) = .fin q⁻¹ from by simp [jsInv, hq])
          hz1' hz2' hsh' (decide_eq_false hxl)
          (decide_eq_false hxr) (decide_eq_true hyd),
        show x + q⁻¹ * (ym - 6 - y) = x2 + q⁻¹ * (ym - 6 - y2) from by
          linear_combination - hqi]
  by_cases hyu : ym + 6 < y
  · refine Or.inr (Or.inr (Or.inr (Or.inr (Or.inr ⟨hyu, ?_, ?_⟩))))
    · intro hc
      have hc2 : (encode x2 y2 xm ym).up = true := decide_eq_true hc
      have := hcons.2.2.2 (decide_eq_true hyu)
      rw [hc2] at this
      exact Bool.noConfusion this
    · have hqi : q⁻¹ * (y - y2) = x - x2 := by
        rw [hInv, inv_mul_cancel_left₀ hq]
      rw [clipStep_up (show jsInv (.fin q) = .fin q⁻¹ from by simp [jsInv, hq])
          hz1' hz2' hsh' (decide_eq_false hxl)
          (decide_eq_false hxr) (decide_eq_false hyd) (decide_eq_true hyu),
        show x + q⁻¹ * (ym + 6 - y) = x2 + q⁻¹ * (ym + 6 - y2) from by
          linear_combination - hqi]
  · exfalso
    have := isZero_of_bits (c := encode x y xm ym) (decide_eq_false hxl)
      (decide_eq_false hxr) (decide_eq_false hyd) (decide_eq_false hyu)
    rw [hz1'] at this
    exact Bool.false_ne_true this

/-- A state whose x-coordinate equals `p2`'s and whose y-bits are clear is
terminal: its only possible outcode bits are `left`/`right`, which it shares
with `p2`. -/
lemma clipStep_x_aligned (xm ym x2 y2 y : ℚ) (m : JsNum)
    (hd : ¬ y < ym - 6) (hu : ¬ y > ym + 6) :
    clipStep xm ym m (encode x2 y2 xm ym) x2 y = .done .hit ∨
    clipStep xm ym m (encode x2 y2 xm ym) x2 y = .done .reject := by
  by_cases hl : x2 < xm - 6
  · have h1 : (encode x2 y xm ym).left = true := decide_eq_true hl
    have h2 : (encode x2 y2 xm ym).left = true := decide_eq_true hl
    exact Or.inr (clipStep_reject (isZero_false_left h1) (isZero_false_left h2)
      (shares_of_left h1 h2))
  by_cases hr : x2 > xm + 6
  · have h1 : (encode x2 y xm ym).right = true := decide_eq_true hr
    have h2 : (encode x2 y2 xm ym).right = true := decide_eq_true hr
    exact Or.inr (clipStep_reject (isZero_false_right h1) (isZero_false_right h2)
      (shares_of_right h1 h2))
  · exact Or.inl (clipStep_hit (Or.inl (isZero_of_bits (c := encode x2 y xm ym)
      (decide_eq_false hl) (decide_eq_false hr) (decide_eq_false hd)
      (decide_eq_false hu))))

/-- A state whose y-coordinate equals `p2`'s and whose x-bits are clear is
terminal. -/
lemma clipStep_y_aligned (xm ym x2 y2 x : ℚ) (m : JsNum)
    (hl : ¬ x < xm - 6) (hr : ¬ x > xm + 6) :
    clipStep xm ym m (encode x2 y2 xm ym) x y2 = .done .hit ∨
    clipStep xm ym m (encode x2 y2 xm ym) x y2 = .done .reject := by
  by_cases hd : y2 < ym - 6
  · have h1 : (encode x y2 xm ym).down = true := decide_eq_true hd
    have h2 : (encode x2 y2 xm ym).down = true := decide_eq_true hd
    exact Or.inr (clipStep_reject (isZero_false_down h1) (isZero_false_down h2)
      (shares_of_down h1 h2))
  by_cases hu : y2 > ym + 6
  · have h1 : (encode x y2 xm ym).up = true := decide_eq_true hu
    have h2 : (encode x2 y2 xm ym).up = true := decide_eq_true hu
    exact Or.inr (clipStep_reject (isZero_false_up h1) (isZero_false_up h2)
      (shares_of_up h1 h2))
  · exact Or.inl (clipStep_hit (Or.inl (isZero_of_bits (c := encode x y2 xm ym)
      (decide_eq_false hl) (decide_eq_false hr) (decide_eq_false hd)
      (decide_eq_false hu))))

/-- A `NaN` slope arises only from coincident endpoints, so the moving point
starts at `p2` and the first iteration already accepts or rejects. -/
lemma clip_resolves_nan (xm ym x2 y2 : ℚ) :
    ∃ r, clipLoop 8 xm ym .nan (encode x2 y2 xm ym) x2 y2 = some r ∧
      (r = ClipRes.hit ∨ r = ClipRes.reject) := by
  by_cases hz : (encode x2 y2 xm ym).isZero = true
  · exact ⟨.hit, clipLoop_done 7 (clipStep_hit (Or.inl hz)), Or.inl rfl⟩
  · have hz' : (encode x2 y2 xm ym).isZero = false := by simpa using hz
    exact ⟨.reject, clipLoop_done 7 (clipStep_reject hz' hz' (shares_self hz')),
      Or.inr rfl⟩

/-- Vertical segments: the slope is `±Infinity`, the inverse slope is `0`,
the moving point's x never changes, and the loop accepts or rejects within
two iterations. -/
lemma clip_resolves_vert (xm ym x2 y2 y : ℚ) (m : JsNum)
    (hm : jsInv m = JsNum.fin 0) :
    ∃ r, clipLoop 8 xm ym m (encode x2 y2 xm ym) x2 y = some r ∧
      (r = ClipRes.hit ∨ r = ClipRes.reject) := by
  by_cases hz2 : (encode x2 y2 xm ym).isZero = true
  · exact ⟨.hit, clipLoop_done 7 (clipStep_hit (Or.inr hz2)), Or.inl rfl⟩
  have hz2' : (encode x2 y2 xm ym).isZero = false := by simpa using hz2
  by_cases hz1 : (encode x2 y xm ym).isZero = true
  · exact ⟨.hit, clipLoop_done 7 (clipStep_hit (Or.inl hz1)), Or.inl rfl⟩
  have hz1' : (encode x2 y xm ym).isZero = false := by simpa using hz1
  by_cases hsh : (encode x2 y xm ym).shares (encode x2 y2 xm ym) = true
  · exact ⟨.reject, clipLoop_done 7 (clipStep_reject hz1' hz2' hsh), Or.inr rfl⟩
  have hsh' : (encode x2 y xm ym).shares (encode x2 y2 xm ym) = false := by
    simpa using hsh
  have hL : (encode x2 y xm ym).left = false := by
    by_cases hl : x2 < xm - 6
    · exfalso
      have := shares_of_left (c := encode x2 y xm ym) (d := encode x2 y2 xm ym)
        (decide_eq_true hl) (decide_eq_true hl)
      rw [hsh'] at this
      exact Bool.false_ne_true this
    · exact decide_eq_false hl
  have hR : (encode x2 y xm ym).right = false := by
    by_cases hr : x2 > xm + 6
    · exfalso
      have := shares_of_right (c := encode x2 y xm ym) (d := encode x2 y2 xm ym)
        (decide_eq_true hr) (decide_eq_true hr)
      rw [hsh'] at this
      exact Bool.false_ne_true this
    · exact decide_eq_false hr
  by_cases hd : y < ym - 6
  · have hstep : clipStep xm ym m (encode x2 y2 xm ym) x2 y = .next x2 (ym - 6) := by
      rw [clipStep_down hm hz1' hz2' hsh' hL hR (decide_eq_true hd),
        show x2 + (0:ℚ) * (ym - 6 - y) = x2 from by ring]
    rcases clipStep_x_aligned xm ym x2 y2 (ym - 6) m (by linarith) (by linarith)
      with h2 | h2
    · exact ⟨.hit, by rw [clipLoop_next 7 hstep]; exact clipLoop_done 6 h2, Or.inl rfl⟩
    · exact ⟨.reject, by rw [clipLoop_next 7 hstep]; exact clipLoop_done 6 h2, Or.inr rfl⟩
  by_cases hu : y > ym + 6
  · have hstep : clipStep xm ym m (encode x2 y2 xm ym) x2 y = .next x2 (ym + 6) := by
      rw [clipStep_up hm hz1' hz2' hsh' hL hR (decide_eq_false hd) (decide_eq_true hu),
        show x2 + (0:ℚ) * (ym + 6 - y) = x2 from by ring]
    rcases clipStep_x_aligned xm ym x2 y2 (ym + 6) m (by linarith) (by linarith)
      with h2 | h2
    · exact ⟨.hit, by rw [clipLoop_next 7 hstep]; exact clipLoop_done 6 h2, Or.inl rfl⟩
    · exact ⟨.reject, by rw [clipLoop_next 7 hstep]; exact clipLoop_done 6 h2, Or.inr rfl⟩
  · exfalso
    have := isZero_of_bits (c := encode x2 y xm ym) hL hR (decide_eq_false hd)
      (decide_eq_false hu)
    rw [hz1'] at this
    exact Bool.false_ne_true this

/-- Horizontal segments: the slope is `0`, the moving point's y never
changes, and the loop accepts or rejects within two iterations. -/
lemma clip_resolves_horiz (xm ym x2 y2 x : ℚ) :
    ∃ r, clipLoop 8 xm ym (.fin 0) (encode x2 y2 xm ym) x y2 = some r ∧
      (r = ClipRes.hit ∨ r = ClipRes.reject) := by
  by_cases hz2 : (encode x2 y2 xm ym).isZero = true
  · exact ⟨.hit, clipLoop_done 7 (clipStep_hit (Or.inr hz2)), Or.inl rfl⟩
  have hz2' : (encode x2 y2 xm ym).isZero = false := by simpa using hz2
  by_cases hz1 : (encode x y2 xm ym).isZero = true
  · exact ⟨.hit, clipLoop_done 7 (clipStep_hit (Or.inl hz1)), Or.inl rfl⟩
  have hz1' : (encode x y2 xm ym).isZero = false := by simpa using hz1
  by_cases hsh : (encode x y2 xm ym).shares (encode x2 y2 xm ym) = true
  · exact ⟨.reject, clipLoop_done 7 (clipStep_reject hz1' hz2' hsh), Or.inr rfl⟩
  have hsh' : (encode x y2 xm ym).shares (encode x2 y2 xm ym) = false := by
    simpa using hsh
  by_cases hxl : x < xm - 6
  · have hstep : clipStep xm ym (.fin 0) (encode x2 y2 xm ym) x y2 =
        .next (xm - 6) y2 := by
      rw [clipStep_left 0 hz1' hz2' hsh' (decide_eq_true hxl),
        show y2 + (0:ℚ) * (xm - 6 - x) = y2 from by ring]
    rcases clipStep_y_aligned xm ym x2 y2 (xm - 6) (.fin 0) (by linarith) (by linarith)
      with h2 | h2
    · exact ⟨.hit, by rw [clipLoop_next 7 hstep]; exact clipLoop_done 6 h2, Or.inl rfl⟩
    · exact ⟨.reject, by rw [clipLoop_next 7 hstep]; exact clipLoop_done 6 h2, Or.inr rfl⟩
  by_cases hxr : x > xm + 6
  · have hstep : clipStep xm ym (.fin 0) (encode x2 y2 xm ym) x y2 =
        .next (xm + 6) y2 := by
      rw [clipStep_right 0 hz1' hz2' hsh' (decide_eq_false hxl) (decide_eq_true hxr),
        show y2 + (0:ℚ) * (xm + 6 - x) = y2 from by ring]
    rcases clipStep_y_aligned xm ym x2 y2 (xm + 6) (.fin 0) (by linarith) (by linarith)
      with h2 | h2
    · exact ⟨.hit, by rw [clipLoop_next 7 hstep]; exact clipLoop_done 6 h2, Or.inl rfl⟩
    · exact ⟨.reject, by rw [clipLoop_next 7 hstep]; exact clipLoop_done 6 h2, Or.inr rfl⟩
  · exfalso
    have hD : (encode x y2 xm ym).down = false := by
      by_cases hd : y2 < ym - 6
      · exfalso
        have := shares_of_down (c := encode x y2 xm ym) (d := encode x2 y2 xm ym)
          (decide_eq_true hd) (decide_eq_true hd)
        rw [hsh'] at this
        exact Bool.false_ne_true this
      · exact decide_eq_false hd
    have hU : (encode x y2 xm ym).up = false := by
      by_cases hu : y2 > ym + 6
      · exfalso
        have := shares_of_up (c := encode x y2 xm ym) (d := encode x2 y2 xm ym)
          (decide_eq_true hu) (decide_eq_true hu)
        rw [hsh'] at this
        exact Bool.false_ne_true this
      · exact decide_eq_false hu
    have := isZero_of_bits (c := encode x y2 xm ym) (decide_eq_false hxl)
      (decide_eq_false hxr) hD hU
    rw [hz1'] at this
    exact Bool.false_ne_true this

/-- For a finite nonzero slope the loop terminates within 8 iterations: the
first clip lands on one of the four boundary points `A`/`B`/`C`/`D` of the
carrier line, every revisit of a boundary point is ruled out by a 2-cycle or
4-cycle sign contradiction on `q` and `q⁻¹`, and boundary points on the same
axis as the current one cannot be clip targets. -/
lemma clip_resolves_main (q x2 y2 xm ym x y : ℚ) (hq : q ≠ 0)
    (hInv : y - y2 = q * (x - x2)) :
    ∃ r, clipLoop 8 xm ym (.fin q) (encode x2 y2 xm ym) x y = some r ∧
      (r = ClipRes.hit ∨ r = ClipRes.reject) := by
  rcases clipStep_main q x2 y2 xm ym x y hq hInv with
    h | h | ⟨_, _, st0⟩ | ⟨_, _, st0⟩ | ⟨_, _, st0⟩ | ⟨_, _, st0⟩
  · exact ⟨.hit, clipLoop_done 7 h, Or.inl rfl⟩
  · exact ⟨.reject, clipLoop_done 7 h, Or.inr rfl⟩
  · rw [clipLoop_next 7 st0]
    rcases clipStep_main q x2 y2 xm ym (xm - 6) (y2 + q * (xm - 6 - x2)) hq (by ring) with
      h | h | ⟨hbad, _, _⟩ | ⟨hbad, _, _⟩ | ⟨hAC, cAC, st1⟩ | ⟨hAD, cAD, st1⟩
    · exact ⟨.hit, clipLoop_done 6 h, Or.inl rfl⟩
    · exact ⟨.reject, clipLoop_done 6 h, Or.inr rfl⟩
    · exact absurd hbad (by linarith)
    · exact absurd hbad (by linarith)
    · rw [clipLoop_next 6 st1]
      rcases clipStep_main q x2 y2 xm ym (x2 + q⁻¹ * (ym - 6 - y2)) (ym - 6) hq (clipInvCD q y2 x2 (ym - 6) hq) with
        h | h | ⟨hCA, cCA, _⟩ | ⟨hCB, cCB, st2⟩ | ⟨hbad, _, _⟩ | ⟨hbad, _, _⟩
      · exact ⟨.hit, clipLoop_done 5 h, Or.inl rfl⟩
      · exact ⟨.reject, clipLoop_done 5 h, Or.inr rfl⟩
      · exact (clipKillAC q x2 y2 (xm - 6) (ym - 6) hq hAC cAC hCA cCA).elim
      · rw [clipLoop_next 5 st2]
        rcases clipStep_main q x2 y2 xm ym (xm + 6) (y2 + q * (xm + 6 - x2)) hq (by ring) with
          h | h | ⟨hbad, _, _⟩ | ⟨hbad, _, _⟩ | ⟨hBC, cBC, _⟩ | ⟨hBD, cBD, st3⟩
        · exact ⟨.hit, clipLoop_done 4 h, Or.inl rfl⟩
        · exact ⟨.reject, clipLoop_done 4 h, Or.inr rfl⟩
        · exact absurd hbad (by linarith)
        · exact absurd hbad (by linarith)
        · exact (clipKillBC q x2 y2 (xm + 6) (ym - 6) hq hBC cBC hCB cCB).elim
        · rw [clipLoop_next 4 st3]
          rcases clipStep_main q x2 y2 xm ym (x2 + q⁻¹ * (ym + 6 - y2)) (ym + 6) hq (clipInvCD q y2 x2 (ym + 6) hq) with
            h | h | ⟨hDA, _, _⟩ | ⟨hDB, cDB, _⟩ | ⟨hbad, _, _⟩ | ⟨hbad, _, _⟩
          · exact ⟨.hit, clipLoop_done 3 h, Or.inl rfl⟩
          · exact ⟨.reject, clipLoop_done 3 h, Or.inr rfl⟩
          · exact (clipKillACBD q x2 y2 xm ym hAC hCB hBD hDA).elim
          · exact (clipKillBD q x2 y2 (xm + 6) (ym + 6) hq hBD cBD hDB cDB).elim
          · exact absurd hbad (by linarith)
          · exact absurd hbad (by linarith)
      · exact absurd hbad (by linarith)
      · exact absurd hbad (by linarith)
    · rw [clipLoop_next 6 st1]
      rcases clipStep_main q x2 y2 xm ym (x2 + q⁻¹ * (ym + 6 - y2)) (ym + 6) hq (clipInvCD q y2 x2 (ym + 6) hq) with
        h | h | ⟨hDA, cDA, _⟩ | ⟨hDB, cDB, st2⟩ | ⟨hbad, _, _⟩ | ⟨hbad, _, _⟩
      · exact ⟨.hit, clipLoop_done 5 h, Or.inl rfl⟩
      · exact ⟨.reject, clipLoop_done 5 h, Or.inr rfl⟩
      · exact (clipKillAD q x2 y2 (xm - 6) (ym + 6) hq hAD cAD hDA cDA).elim
      · rw [clipLoop_next 5 st2]
        rcases clipStep_main q x2 y2 xm ym (xm + 6) (y2 + q * (xm + 6 - x2)) hq (by ring) with
          h | h | ⟨hbad, _, _⟩ | ⟨hbad, _, _⟩ | ⟨hBC, cBC, st3⟩ | ⟨hBD, cBD, _⟩
        · exact ⟨.hit, clipLoop_done 4 h, Or.inl rfl⟩
        · exact ⟨.reject, clipLoop_done 4 h, Or.inr rfl⟩
        · exact absurd hbad (by linarith)
        · exact absurd hbad (by linarith)
        · rw [clipLoop_next 4 st3]
          rcases clipStep_main q x2 y2 xm ym (x2 + q⁻¹ * (ym - 6 - y2)) (ym - 6) hq (clipInvCD q y2 x2 (ym - 6) hq) with
            h | h | ⟨hCA, _, _⟩ | ⟨hCB, cCB, _⟩ | ⟨hbad, _, _⟩ | ⟨hbad, _, _⟩
          · exact ⟨.hit, clipLoop_done 3 h, Or.inl rfl⟩
          · exact ⟨.reject, clipLoop_done 3 h, Or.inr rfl⟩
          · exact (clipKillADBC q x2 y2 xm ym hAD hDB hBC hCA).elim
          · exact (clipKillBC q x2 y2 (xm + 6) (ym - 6) hq hBC cBC hCB cCB).elim
          · exact absurd hbad (by linarith)
          · exact absurd hbad (by linarith)
        · exact (clipKillBD q x2 y2 (xm + 6) (ym + 6) hq hBD cBD hDB cDB).elim
      · exact absurd hbad (by linarith)
      · exact absurd hbad (by linarith)
  · rw [clipLoop_next 7 st0]
    rcases clipStep_main q x2 y2 xm ym (xm + 6) (y2 + q * (xm + 6 - x2)) hq (by ring) with
      h | h | ⟨hbad, _, _⟩ | ⟨hbad, _, _⟩ | ⟨hBC, cBC, st1⟩ | ⟨hBD, cBD, st1⟩
    · exact ⟨.hit, clipLoop_done 6 h, Or.inl rfl⟩
    · exact ⟨.reject, clipLoop_done 6 h, Or.inr rfl⟩
    · exact absurd hbad (by linarith)
    · exact absurd hbad (by linarith)
    · rw [clipLoop_next 6 st1]
      rcases clipStep_main q x2 y2 xm ym (x2 + q⁻¹ * (ym - 6 - y2)) (ym - 6) hq (clipInvCD q y2 x2 (ym - 6) hq) with
        h | h | ⟨hCA, cCA, st2⟩ | ⟨hCB, cCB, _⟩ | ⟨hbad, _, _⟩ | ⟨hbad, _, _⟩
      · exact ⟨.hit, clipLoop_done 5 h, Or.inl rfl⟩
      · exact ⟨.reject, clipLoop_done 5 h, Or.inr rfl⟩
      · rw [clipLoop_next 5 st2]
        rcases clipStep_main q x2 y2 xm ym (xm - 6) (y2 + q * (xm - 6 - x2)) hq (by ring) with
          h | h | ⟨hbad, _, _⟩ | ⟨hbad, _, _⟩ | ⟨hAC, cAC, _⟩ | ⟨hAD, cAD, st3⟩
        · exact ⟨.hit, clipLoop_done 4 h, Or.inl rfl⟩
        · exact ⟨.reject, clipLoop_done 4 h, Or.inr rfl⟩
        · exact absurd hbad (by linarith)
        · exact absurd hbad (by linarith)
        · exact (clipKillAC q x2 y2 (xm - 6) (ym - 6) hq hAC cAC hCA cCA).elim
        · rw [clipLoop_next 4 st3]
          rcases clipStep_main q x2 y2 xm ym (x2 + q⁻¹ * (ym + 6 - y2)) (ym + 6) hq (clipInvCD q y2 x2 (ym + 6) hq) with
            h | h | ⟨hDA, cDA, _⟩ | ⟨hDB, _, _⟩ | ⟨hbad, _, _⟩ | ⟨hbad, _, _⟩
          · exact ⟨.hit, clipLoop_done 3 h, Or.inl rfl⟩
          · exact ⟨.reject, clipLoop_done 3 h, Or.inr rfl⟩
          · exact (clipKillAD q x2 y2 (xm - 6) (ym + 6) hq hAD cAD hDA cDA).elim
          · exact (clipKillADBC q x2 y2 xm ym hAD hDB hBC hCA).elim
          · exact absurd hbad (by linarith)
          · exact absurd hbad (by linarith)
      · exact (clipKillBC q x2 y2 (xm + 6) (ym - 6) hq hBC cBC hCB cCB).elim
      · exact absurd hbad (by linarith)
      · exact absurd hbad (by linarith)
    · rw [clipLoop_next 6 st1]
      rcases clipStep_main q x2 y2 xm ym (x2 + q⁻¹ * (ym + 6 - y2)) (ym + 6) hq (clipInvCD q y2 x2 (ym + 6) hq) with
        h | h | ⟨hDA, cDA, st2⟩ | ⟨hDB, cDB, _⟩ | ⟨hbad, _, _⟩ | ⟨hbad, _, _⟩
      · exact ⟨.hit, clipLoop_done 5 h, Or.inl rfl⟩
      · exact ⟨.reject, clipLoop_done 5 h, Or.inr rfl⟩
      · rw [clipLoop_next 5 st2]
        rcases clipStep_main q x2 y2 xm ym (xm - 6) (y2 + q * (xm - 6 - x2)) hq (by ring) with
          h | h | ⟨hbad, _, _⟩ | ⟨hbad, _, _⟩ | ⟨hAC, cAC, st3⟩ | ⟨hAD, cAD, _⟩
        · exact ⟨.hit, clipLoop_done 4 h, Or.inl rfl⟩
        · exact ⟨.reject, clipLoop_done 4 h, Or.inr rfl⟩
        · exact absurd hbad (by linarith)
        · exact absurd hbad (by linarith)
        · rw [clipLoop_next 4 st3]
          rcases clipStep_main q x2 y2 xm ym (x2 + q⁻¹ * (ym - 6 - y2)) (ym - 6) hq (clipInvCD q y2 x2 (ym - 6) hq) with
            h | h | ⟨hCA, cCA, _⟩ | ⟨hCB, _, _⟩ | ⟨hbad, _, _⟩ | ⟨hbad, _, _⟩
          · exact ⟨.hit, clipLoop_done 3 h, Or.inl rfl⟩
          · exact ⟨.reject, clipLoop_done 3 h, Or.inr rfl⟩
          · exact (clipKillAC q x2 y2 (xm - 6) (ym - 6) hq hAC cAC hCA cCA).elim
          · exact (clipKillACBD q x2 y2 xm ym hAC hCB hBD hDA).elim
          · exact absurd hbad (by linarith)
          · exact absurd hbad (by linarith)
        · exact (clipKillAD q x2 y2 (xm - 6) (ym + 6) hq hAD cAD hDA cDA).elim
      · exact (clipKillBD q x2 y2 (xm + 6) (ym + 6) hq hBD cBD hDB cDB).elim
      · exact absurd hbad (by linarith)
      · exact absurd hbad (by linarith)
  · rw [clipLoop_next 7 st0]
    rcases clipStep_main q x2 y2 xm ym (x2 + q⁻¹ * (ym - 6 - y2)) (ym - 6) hq (clipInvCD q y2 x2 (ym - 6) hq) with
      h | h | ⟨hCA, cCA, st1⟩ | ⟨hCB, cCB, st1⟩ | ⟨hbad, _, _⟩ | ⟨hbad, _, _⟩
    · exact ⟨.hit, clipLoop_done 6 h, Or.inl rfl⟩
    · exact ⟨.reject, clipLoop_done 6 h, Or.inr rfl⟩
    · rw [clipLoop_next 6 st1]
      rcases clipStep_main q x2 y2 xm ym (xm - 6) (y2 + q * (xm - 6 - x2)) hq (by ring) with
        h | h | ⟨hbad, _, _⟩ | ⟨hbad, _, _⟩ | ⟨hAC, cAC, _⟩ | ⟨hAD, cAD, st2⟩
      · exact ⟨.hit, clipLoop_done 5 h, Or.inl rfl⟩
      · exact ⟨.reject, clipLoop_done 5 h, Or.inr rfl⟩
      · exact absurd hbad (by linarith)
      · exact absurd hbad (by linarith)
      · exact (clipKillAC q x2 y2 (xm - 6) (ym - 6) hq hAC cAC hCA cCA).elim
      · rw [clipLoop_next 5 st2]
        rcases clipStep_main q x2 y2 xm ym (x2 + q⁻¹ * (ym + 6 - y2)) (ym + 6) hq (clipInvCD q y2 x2 (ym + 6) hq) with
          h | h | ⟨hDA, cDA, _⟩ | ⟨hDB, cDB, st3⟩ | ⟨hbad, _, _⟩ | ⟨hbad, _, _⟩
        · exact ⟨.hit, clipLoop_done 4 h, Or.inl rfl⟩
        · exact ⟨.reject, clipLoop_done 4 h, Or.inr rfl⟩
        · exact (clipKillAD q x2 y2 (xm - 6) (ym + 6) hq hAD cAD hDA cDA).elim
        · rw [clipLoop_next 4 st3]
          rcases clipStep_main q x2 y2 xm ym (xm + 6) (y2 + q * (xm + 6 - x2)) hq (by ring) with
            h | h | ⟨hbad, _, _⟩ | ⟨hbad, _, _⟩ | ⟨hBC, _, _⟩ | ⟨hBD, cBD, _⟩
          · exact ⟨.hit, clipLoop_done 3 h, Or.inl rfl⟩
          · exact ⟨.reject, clipLoop_done 3 h, Or.inr rfl⟩
          · exact absurd hbad (by linarith)
          · exact absurd hbad (by linarith)
          · exact (clipKillADBC q x2 y2 xm ym hAD hDB hBC hCA).elim
          · exact (clipKillBD q x2 y2 (xm + 6) (ym + 6) hq hBD cBD hDB cDB).elim
        · exact absurd hbad (by linarith)
        · exact absurd hbad (by linarith)
    · rw [clipLoop_next 6 st1]
      rcases clipStep_main q x2 y2 xm ym (xm + 6) (y2 + q * (xm + 6 - x2)) hq (by ring) with
        h | h | ⟨hbad, _, _⟩ | ⟨hbad, _, _⟩ | ⟨hBC, cBC, _⟩ | ⟨hBD, cBD, st2⟩
      · exact ⟨.hit, clipLoop_done 5 h, Or.inl rfl⟩
      · exact ⟨.reject, clipLoop_done 5 h, Or.inr rfl⟩
      · exact absurd hbad (by linarith)
      · exact absurd hbad (by linarith)
      · exact (clipKillBC q x2 y2 (xm + 6) (ym - 6) hq hBC cBC hCB cCB).elim
      · rw [clipLoop_next 5 st2]
        rcases clipStep_main q x2 y2 xm ym (x2 + q⁻¹ * (ym + 6 - y2)) (ym + 6) hq (clipInvCD q y2 x2 (ym + 6) hq) with
          h | h | ⟨hDA, cDA, st3⟩ | ⟨hDB, cDB, _⟩ | ⟨hbad, _, _⟩ | ⟨hbad, _, _⟩
        · exact ⟨.hit, clipLoop_done 4 h, Or.inl rfl⟩
        · exact ⟨.reject, clipLoop_done 4 h, Or.inr rfl⟩
        · rw [clipLoop_next 4 st3]
          rcases clipStep_main q x2 y2 xm ym (xm - 6) (y2 + q * (xm - 6 - x2)) hq (by ring) with
            h | h | ⟨hbad, _, _⟩ | ⟨hbad, _, _⟩ | ⟨hAC, _, _⟩ | ⟨hAD, cAD, _⟩
          · exact ⟨.hit, clipLoop_done 3 h, Or.inl rfl⟩
          · exact ⟨.reject, clipLoop_done 3 h, Or.inr rfl⟩
          · exact absurd hbad (by linarith)
          · exact absurd hbad (by linarith)
          · exact (clipKillACBD q x2 y2 xm ym hAC hCB hBD hDA).elim
          · exact (clipKillAD q x2 y2 (xm - 6) (ym + 6) hq hAD cAD hDA cDA).elim
        · exact (clipKillBD q x2 y2 (xm + 6) (ym + 6) hq hBD cBD hDB cDB).elim
        · exact absurd hbad (by linarith)
        · exact absurd hbad (by linarith)
    · exact absurd hbad (by linarith)
    · exact absurd hbad (by linarith)
  · rw [clipLoop_next 7 st0]
    rcases clipStep_main q x2 y2 xm ym (x2 + q⁻¹ * (ym + 6 - y2)) (ym + 6) hq (clipInvCD q y2 x2 (ym + 6) hq) with
      h | h | ⟨hDA, cDA, st1⟩ | ⟨hDB, cDB, st1⟩ | ⟨hbad, _, _⟩ | ⟨hbad, _, _⟩
    · exact ⟨.hit, clipLoop_done 6 h, Or.inl rfl⟩
    · exact ⟨.reject, clipLoop_done 6 h, Or.inr rfl⟩
    · rw [clipLoop_next 6 st1]
      rcases clipStep_main q x2 y2 xm ym (xm - 6) (y2 + q * (xm - 6 - x2)) hq (by ring) with
        h | h | ⟨hbad, _, _⟩ | ⟨hbad, _, _⟩ | ⟨hAC, cAC, st2⟩ | ⟨hAD, cAD, _⟩
      · exact ⟨.hit, clipLoop_done 5 h, Or.inl rfl⟩
      · exact ⟨.reject, clipLoop_done 5 h, Or.inr rfl⟩
      · exact absurd hbad (by linarith)
      · exact absurd hbad (by linarith)
      · rw [clipLoop_next 5 st2]
        rcases clipStep_main q x2 y2 xm ym (x2 + q⁻¹ * (ym - 6 - y2)) (ym - 6) hq (clipInvCD q y2 x2 (ym - 6) hq) with
          h | h | ⟨hCA, cCA, _⟩ | ⟨hCB, cCB, st3⟩ | ⟨hbad, _, _⟩ | ⟨hbad, _, _⟩
        · exact ⟨.hit, clipLoop_done 4 h, Or.inl rfl⟩
        · exact ⟨.reject, clipLoop_done 4 h, Or.inr rfl⟩
        · exact (clipKillAC q x2 y2 (xm - 6) (ym - 6) hq hAC cAC hCA cCA).elim
        · rw [clipLoop_next 4 st3]
          rcases clipStep_main q x2 y2 xm ym (xm + 6) (y2 + q * (xm + 6 - x2)) hq (by ring) with
            h | h | ⟨hbad, _, _⟩ | ⟨hbad, _, _⟩ | ⟨hBC, cBC, _⟩ | ⟨hBD, _, _⟩
          · exact ⟨.hit, clipLoop_done 3 h, Or.inl rfl⟩
          · exact ⟨.reject, clipLoop_done 3 h, Or.inr rfl⟩
          · exact absurd hbad (by linarith)
          · exact absurd hbad (by linarith)
          · exact (clipKillBC q x2 y2 (xm + 6) (ym - 6) hq hBC cBC hCB cCB).elim
          · exact (clipKillACBD q x2 y2 xm ym hAC hCB hBD hDA).elim
        · exact absurd hbad (by linarith)
        · exact absurd hbad (by linarith)
      · exact (clipKillAD q x2 y2 (xm - 6) (ym + 6) hq hAD cAD hDA cDA).elim
    · rw [clipLoop_next 6 st1]
      rcases clipStep_main q x2 y2 xm ym (xm + 6) (y2 + q * (xm + 6 - x2)) hq (by ring) with
        h | h | ⟨hbad, _, _⟩ | ⟨hbad, _, _⟩ | ⟨hBC, cBC, st2⟩ | ⟨hBD, cBD, _⟩
      · exact ⟨.hit, clipLoop_done 5 h, Or.inl rfl⟩
      · exact ⟨.reject, clipLoop_done 5 h, Or.inr rfl⟩
      · exact absurd hbad (by linarith)
      · exact absurd hbad (by linarith)
      · rw [clipLoop_next 5 st2]
        rcases clipStep_main q x2 y2 xm ym (x2 + q⁻¹ * (ym - 6 - y2)) (ym - 6) hq (clipInvCD q y2 x2 (ym - 6) hq) with
          h | h | ⟨hCA, cCA, st3⟩ | ⟨hCB, cCB, _⟩ | ⟨hbad, _, _⟩ | ⟨hbad, _, _⟩
        · exact ⟨.hit, clipLoop_done 4 h, Or.inl rfl⟩
        · exact ⟨.reject, clipLoop_done 4 h, Or.inr rfl⟩
        · rw [clipLoop_next 4 st3]
          rcases clipStep_main q x2 y2 xm ym (xm - 6) (y2 + q * (xm - 6 - x2)) hq (by ring) with
            h | h | ⟨hbad, _, _⟩ | ⟨hbad, _, _⟩ | ⟨hAC, cAC, _⟩ | ⟨hAD, _, _⟩
          · exact ⟨.hit, clipLoop_done 3 h, Or.inl rfl⟩
          · exact ⟨.reject, clipLoop_done 3 h, Or.inr rfl⟩
          · exact absurd hbad (by linarith)
          · exact absurd hbad (by linarith)
          · exact (clipKillAC q x2 y2 (xm - 6) (ym - 6) hq hAC cAC hCA cCA).elim
          · exact (clipKillADBC q x2 y2 xm ym hAD hDB hBC hCA).elim
        · exact (clipKillBC q x2 y2 (xm + 6) (ym - 6) hq hBC cBC hCB cCB).elim
        · exact absurd hbad (by linarith)
        · exact absurd hbad (by linarith)
      · exact (clipKillBD q x2 y2 (xm + 6) (ym + 6) hq hBD cBD hDB cDB).elim
    · exact absurd hbad (by linarith)
    · exact absurd hbad (by linarith)

/-- Full per-segment dispatch: whatever the slope (finite, zero, infinite or
`NaN`), the boundary-projection loop of `Line.pick` resolves to a trivial
accept or a trivial reject within 8 iterations. -/
lemma clip_resolves_seg (l : Seg) (xm ym : ℚ) :
    ∃ r, lineClip l xm ym 8 = some r ∧ (r = ClipRes.hit ∨ r = ClipRes.reject) := by
  unfold lineClip
  by_cases hdx : l.x2 - l.x1 = 0
  · have hx : l.x1 = l.x2 := by linarith
    rcases lt_trichotomy (l.y2 - l.y1) 0 with hdy | hdy | hdy
    · have hm : jsDiv (l.y2 - l.y1) (l.x2 - l.x1) = JsNum.ninf := by
        unfold jsDiv
        rw [if_neg (not_not_intro hdx), if_neg (by linarith), if_pos hdy]
      rw [hm, hx]
      exact clip_resolves_vert xm ym l.x2 l.y2 l.y1 JsNum.ninf rfl
    · have hy : l.y1 = l.y2 := by linarith
      have hm : jsDiv (l.y2 - l.y1) (l.x2 - l.x1) = JsNum.nan := by
        unfold jsDiv
        rw [if_neg (not_not_intro hdx), if_neg (by linarith), if_neg (by linarith)]
      rw [hm, hx, hy]
      exact clip_resolves_nan xm ym l.x2 l.y2
    · have hm : jsDiv (l.y2 - l.y1) (l.x2 - l.x1) = JsNum.pinf := by
        unfold jsDiv
        rw [if_neg (not_not_intro hdx), if_pos hdy]
      rw [hm, hx]
      exact clip_resolves_vert xm ym l.x2 l.y2 l.y1 JsNum.pinf rfl
  · have hm : jsDiv (l.y2 - l.y1) (l.x2 - l.x1) =
        JsNum.fin ((l.y2 - l.y1) / (l.x2 - l.x1)) := by
      unfold jsDiv
      rw [if_pos hdx]
    rw [hm]
    by_cases hq : (l.y2 - l.y1) / (l.x2 - l.x1) = 0
    · have hy : l.y1 = l.y2 := by
        rcases div_eq_zero_iff.mp hq with h | h
        · linarith
        · exact absurd h hdx
      rw [hq, hy]
      exact clip_resolves_horiz xm ym l.x2 l.y2 l.x1
    · have hInv : l.y1 - l.y2 = (l.y2 - l.y1) / (l.x2 - l.x1) * (l.x1 - l.x2) := by
        rw [div_mul_eq_mul_div, eq_div_iff hdx]
        ring
      exact clip_resolves_main ((l.y2 - l.y1) / (l.x2 - l.x1)) l.x2 l.y2 xm ym
        l.x1 l.y1 hq hInv

/-- C10: `Line.pick` terminates on every segment and query point — the inner
`while (true)` boundary-projection loop reaches the trivial accept
(`code_p1 == 0 || code_p2 == 0`) or the trivial reject
(`code_p1 & code_p2 != 0`) within 8 iterations, for every slope (finite,
zero, `±Infinity` from a vertical segment, `NaN` from a degenerate one). -/
theorem c10_line_pick_terminates (l : Seg) (xm ym : ℚ) :
    lineClip l xm ym 8 = some ClipRes.hit ∨
    lineClip l xm ym 8 = some ClipRes.reject := by
  rcases clip_resolves_seg l xm ym with ⟨r, heq, hr | hr⟩
  · exact Or.inl (hr ▸ heq)
  · exact Or.inr (hr ▸ heq)

/-- C8: a vertical segment (equal x-coordinates, distinct y-coordinates, so
the slope `(y2-y1)/(x2-x1)` is `±Infinity`) is handled by the inverse-slope
branch — `1/m` evaluates to the finite value `0`, no coordinate ever leaves
the rational domain (no division-by-zero fault, modelled as `oob`/`none`),
and the hit-test resolves to a hit or a miss. -/
theorem c8_vertical_resolves (l : Seg) (xm ym : ℚ) (hx : l.x1 = l.x2)
    (hy : l.y1 ≠ l.y2) :
    jsInv (jsDiv (l.y2 - l.y1) (l.x2 - l.x1)) = JsNum.fin 0 ∧
    (lineClip l xm ym 8 = some ClipRes.hit ∨
      lineClip l xm ym 8 = some ClipRes.reject) := by
  constructor
  · have hdx : l.x2 - l.x1 = 0 := by rw [hx, sub_self]
    rcases lt_trichotomy (l.y2 - l.y1) 0 with hdy | hdy | hdy
    · have hm : jsDiv (l.y2 - l.y1) (l.x2 - l.x1) = JsNum.ninf := by
        unfold jsDiv
        rw [if_neg (not_not_intro hdx), if_neg (by linarith), if_pos hdy]
      rw [hm]
      rfl
    · exact absurd (by linarith : l.y1 = l.y2) hy
    · have hm : jsDiv (l.y2 - l.y1) (l.x2 - l.x1) = JsNum.pinf := by
        unfold jsDiv
        rw [if_neg (not_not_intro hdx), if_pos hdy]
      rw [hm]
      rfl
  · rcases clip_resolves_seg l xm ym with ⟨r, heq, hr | hr⟩
    · exact Or.inl (hr ▸ heq)
    · exact Or.inr (hr ▸ heq)

theorem c8_vertical_resolves_witness :
    jsInv (jsDiv ((Seg.mk 0 0 0 10).y2 - (Seg.mk 0 0 0 10).y1)
        ((Seg.mk 0 0 0 10).x2 - (Seg.mk 0 0 0 10).x1)) = JsNum.fin 0 ∧
    (lineClip (Seg.mk 0 0 0 10) 1 5 8 = some ClipRes.hit ∨
      lineClip (Seg.mk 0 0 0 10) 1 5 8 = some ClipRes.reject) :=
  c8_vertical_resolves (Seg.mk 0 0 0 10) 1 5 rfl (by decide)

end Proofs

end Webgl
